import Mathlib

/-!
Verification development for the prompt-to-site-configuration pipeline of the
astro-template-LLM repository.

The TypeScript sources are shallowly embedded as executable Lean definitions:

* `src/lib/schemas.ts` — the canonical Zod `SiteConfigSchema` (structural
  bounds), `validateSecurityConstraints` (sensitive-content scan over the
  JSON serialization);
* `src/lib/mcp-client.ts` — `extractSiteName` and the other prompt heuristic
  helpers, `generateSiteConfig` (the local generation path with its prompt
  gate), `verifyWebhookSignature`;
* `src/lib/sanitization.ts` — `sanitizeSiteConfig` with its three stages
  (`sanitizeTextContent`, `sanitizeUrls`, `enforceCharacterLimits`).

JavaScript strings are modelled as Lean `String`/`List Char` with length
counted in characters; the `\s` character class of JavaScript regular
expressions is modelled by the ASCII whitespace set used throughout the
sources.  Regular expressions are embedded as explicit leftmost-match
scanners that mirror the backtracking behaviour of the concrete patterns in
the sources.
-/

/-- Whitespace as matched by the JavaScript `\s` class (ASCII part, the only
part exercised by the sources and the proofs). -/
def isWS (c : Char) : Bool :=
  c == ' ' || c == '\t' || c == '\n' || c == '\r' || c == '\x0b' || c == '\x0c'

/-- Lowercase a list of characters (model of JavaScript `toLowerCase` on the
ASCII range). -/
def lcs (l : List Char) : List Char := l.map Char.toLower

/-- Case-insensitive literal prefix test. -/
def prefCI : List Char → List Char → Bool
  | [], _ => true
  | _ :: _, [] => false
  | p :: ps, c :: cs => (p.toLower == c.toLower) && prefCI ps cs

/-- Case-sensitive literal prefix test on character lists. -/
def prefLit (p s : List Char) : Bool := p.isPrefixOf s

/-- Does `pat` occur as a (case-sensitive) substring of `s`? -/
def subOccurs (pat s : List Char) : Bool :=
  (List.range (s.length + 1)).any fun i => prefLit pat (s.drop i)

/-- Model of `lowerPrompt.includes(keyword)` for an already lowercase
keyword. -/
def containsKeyword (s : String) (kw : String) : Bool :=
  subOccurs kw.data (lcs s.data)

/-- Model of the JavaScript `startsWith` (case-sensitive prefix on
strings). -/
def strStarts (p s : String) : Bool := prefLit p.data s.data

/-- Leftmost index at which `pat` occurs in `s` as a substring. -/
def firstIdxOfSub (s pat : List Char) : Option Nat :=
  (List.range (s.length + 1)).find? fun i => prefLit pat (s.drop i)

/-- Drop the trailing whitespace run. -/
def trimEnd : List Char → List Char
  | [] => []
  | c :: cs => if (trimEnd cs).isEmpty && isWS c then [] else c :: trimEnd cs

/-- Model of the JavaScript string `trim` (drop leading and trailing
whitespace). -/
def trimWS (l : List Char) : List Char :=
  trimEnd (l.dropWhile isWS)

/-- Model of `replace(/\s+/g, " ")`: every maximal whitespace run becomes a
single space. -/
def wsCollapse : List Char → List Char
  | [] => []
  | c :: cs =>
    match cs with
    | [] => [if isWS c then ' ' else c]
    | c2 :: _ =>
      if isWS c && isWS c2 then wsCollapse cs
      else (if isWS c then ' ' else c) :: wsCollapse cs

/-- Trim-then-collapse normalisation used by `cleanText` in
`sanitization.ts` (`replace(/\s+/g, " ").trim()`). -/
def collapseTrim (l : List Char) : List Char := trimWS (wsCollapse l)

/-- String-level version of `collapseTrim`. -/
def collapseTrimStr (s : String) : String := String.mk (collapseTrim s.data)

/-- No two adjacent whitespace characters. -/
def noTwoWS : List Char → Bool
  | [] => true
  | [_] => true
  | a :: b :: r => !(isWS a && isWS b) && noTwoWS (b :: r)

/-- Every whitespace character is a plain space. -/
def wsIsSpace (l : List Char) : Bool := l.all fun c => !isWS c || c == ' '

/-- The head, if any, is not whitespace. -/
def headNotWS (l : List Char) : Bool :=
  match l with
  | [] => true
  | c :: _ => !isWS c

/-- The last element, if any, is not whitespace. -/
def lastNotWS (l : List Char) : Bool :=
  l.getLast?.elim true fun c => !isWS c

/-- Fully whitespace-normalised: no adjacent whitespace, only plain spaces,
no leading or trailing whitespace. -/
def wsNorm (l : List Char) : Bool :=
  noTwoWS l && wsIsSpace l && headNotWS l && lastNotWS l

/- ----------------------------------------------------------------- -/
/- Data model: the `SiteConfig` shape of `src/lib/schemas.ts` /
   `src/types/site-config.ts`. -/

/-- A call-to-action button (`CTASchema`). -/
structure CTA where
  text : String
  href : String
deriving DecidableEq

/-- The optional `cta` object of a hero block. -/
structure CTAPair where
  primary : Option CTA
  secondary : Option CTA
deriving DecidableEq

/-- A hero block (`HeroSchema`). -/
structure Hero where
  title : String
  subtitle : String
  cta : Option CTAPair
deriving DecidableEq

/-- A feature entry (`FeatureSchema`). -/
structure Feature where
  icon : Option String
  title : String
  description : String
deriving DecidableEq

/-- A team member of the about page (`TeamMemberSchema`). -/
structure TeamMember where
  name : String
  role : String
  bio : Option String
deriving DecidableEq

/-- A service entry (`ServiceSchema`). -/
structure Service where
  title : String
  description : String
  features : Option (List String)
deriving DecidableEq

/-- The mandatory home page (`HomePageSchema`). -/
structure HomePage where
  hero : Hero
  features : List Feature
deriving DecidableEq

/-- The optional about page (`AboutPageSchema`). -/
structure AboutPage where
  hero : Option Hero
  blurb : Option String
  team : Option (List TeamMember)
deriving DecidableEq

/-- The optional contact page (`ContactPageSchema`). -/
structure ContactPage where
  hero : Option Hero
  emailPlaceholder : Option String
  address : Option String
  phone : Option String
deriving DecidableEq

/-- The optional services page (`ServicesPageSchema`). -/
structure ServicesPage where
  hero : Option Hero
  services : Option (List Service)
deriving DecidableEq

/-- The page set (`SitePagesSchema`). -/
structure SitePages where
  home : HomePage
  about : Option AboutPage
  contact : Option ContactPage
  services : Option ServicesPage
deriving DecidableEq

/-- An image entry (`ImageSchema`). -/
structure SiteImage where
  url : String
  alt : String
deriving DecidableEq

/-- The root site configuration (`SiteConfigSchema`). -/
structure SiteConfig where
  name : String
  description : String
  pages : SitePages
  images : Option (List SiteImage)
deriving DecidableEq

/- ----------------------------------------------------------------- -/
/- JSON serialization, model of `JSON.stringify` on a `SiteConfig` value
   (used by `validateSecurityConstraints`).  Keys are emitted in the
   declaration order of the schema; absent optional fields are omitted,
   exactly as `JSON.stringify` omits `undefined` properties. -/

/-- Hexadecimal digit for `\u00XX` escapes. -/
def hexDigitChar (n : Nat) : Char :=
  if n < 10 then Char.ofNat (48 + n) else Char.ofNat (87 + n)

/-- Escape one character as `JSON.stringify` does inside a string literal. -/
def jsonEscapeChar (c : Char) : List Char :=
  if c == '"' then ['\\', '"']
  else if c == '\\' then ['\\', '\\']
  else if c == '\n' then ['\\', 'n']
  else if c == '\r' then ['\\', 'r']
  else if c == '\t' then ['\\', 't']
  else if c == '\x08' then ['\\', 'b']
  else if c == '\x0c' then ['\\', 'f']
  else if c.toNat < 32 then
    ['\\', 'u', '0', '0', hexDigitChar (c.toNat / 16), hexDigitChar (c.toNat % 16)]
  else [c]

/-- JSON string literal for `s`. -/
def jstr (s : String) : String :=
  "\"" ++ String.mk (s.data.flatMap jsonEscapeChar) ++ "\""

/-- JSON object from present key/value pairs. -/
def jobj (fields : List (Option (String × String))) : String :=
  "\x7b" ++
    String.intercalate ","
      ((fields.filterMap id).map fun kv => jstr kv.1 ++ ":" ++ kv.2) ++
  "\x7d"

/-- JSON array. -/
def jarr (elems : List String) : String :=
  "[" ++ String.intercalate "," elems ++ "]"

/-- Serialize a CTA button. -/
def ctaJson (c : CTA) : String :=
  jobj [some ("text", jstr c.text), some ("href", jstr c.href)]

/-- Serialize the optional cta pair of a hero. -/
def ctaPairJson (p : CTAPair) : String :=
  jobj [p.primary.map fun c => ("primary", ctaJson c),
        p.secondary.map fun c => ("secondary", ctaJson c)]

/-- Serialize a hero block. -/
def heroJson (h : Hero) : String :=
  jobj [some ("title", jstr h.title), some ("subtitle", jstr h.subtitle),
        h.cta.map fun p => ("cta", ctaPairJson p)]

/-- Serialize a feature entry. -/
def featureJson (f : Feature) : String :=
  jobj [f.icon.map fun ic => ("icon", jstr ic),
        some ("title", jstr f.title),
        some ("description", jstr f.description)]

/-- Serialize a team member. -/
def teamMemberJson (t : TeamMember) : String :=
  jobj [some ("name", jstr t.name), some ("role", jstr t.role),
        t.bio.map fun b => ("bio", jstr b)]

/-- Serialize a service entry. -/
def serviceJson (s : Service) : String :=
  jobj [some ("title", jstr s.title), some ("description", jstr s.description),
        s.features.map fun fs => ("features", jarr (fs.map jstr))]

/-- Serialize the home page. -/
def homePageJson (hp : HomePage) : String :=
  jobj [some ("hero", heroJson hp.hero),
        some ("features", jarr (hp.features.map featureJson))]

/-- Serialize the about page. -/
def aboutPageJson (a : AboutPage) : String :=
  jobj [a.hero.map fun h => ("hero", heroJson h),
        a.blurb.map fun b => ("blurb", jstr b),
        a.team.map fun ts => ("team", jarr (ts.map teamMemberJson))]

/-- Serialize the contact page. -/
def contactPageJson (ct : ContactPage) : String :=
  jobj [ct.hero.map fun h => ("hero", heroJson h),
        ct.emailPlaceholder.map fun e => ("emailPlaceholder", jstr e),
        ct.address.map fun a => ("address", jstr a),
        ct.phone.map fun p => ("phone", jstr p)]

/-- Serialize the services page. -/
def servicesPageJson (sv : ServicesPage) : String :=
  jobj [sv.hero.map fun h => ("hero", heroJson h),
        sv.services.map fun ss => ("services", jarr (ss.map serviceJson))]

/-- Serialize the page set. -/
def sitePagesJson (p : SitePages) : String :=
  jobj [some ("home", homePageJson p.home),
        p.about.map fun a => ("about", aboutPageJson a),
        p.contact.map fun c => ("contact", contactPageJson c),
        p.services.map fun s => ("services", servicesPageJson s)]

/-- Model of `JSON.stringify(config)` for a whole site configuration. -/
def siteConfigJson (c : SiteConfig) : String :=
  jobj [some ("name", jstr c.name),
        some ("description", jstr c.description),
        some ("pages", sitePagesJson c.pages),
        c.images.map fun imgs =>
          ("images", jarr (imgs.map fun im =>
            jobj [some ("url", jstr im.url), some ("alt", jstr im.alt)]))]

/- ----------------------------------------------------------------- -/
/- Security check: `validateSecurityConstraints` of `src/lib/schemas.ts`.
   Each regular expression of the `sensitivePatterns` table is embedded as
   a Boolean matcher over the (lowercased) serialized text. -/

/-- Hexadecimal character after lowercasing (the class `[a-f0-9]` under the
`i` flag). -/
def isHexLC (c : Char) : Bool := ('a' ≤ c && c ≤ 'f') || ('0' ≤ c && c ≤ '9')

/-- Matcher for `/api[_-]?key/i`. -/
def mApiKey (s : List Char) : Bool :=
  let l := lcs s
  (List.range (l.length + 1)).any fun i =>
    prefLit "api".data (l.drop i) &&
      (prefLit "key".data (l.drop (i + 3)) ||
        (((l.get? (i + 3) == some '_') || (l.get? (i + 3) == some '-')) &&
          prefLit "key".data (l.drop (i + 4))))

/-- Matcher for `/secret/i`. -/
def mSecret (s : List Char) : Bool := subOccurs "secret".data (lcs s)

/-- Matcher for `/password/i`. -/
def mPassword (s : List Char) : Bool := subOccurs "password".data (lcs s)

/-- Matcher for `/token/i`. -/
def mToken (s : List Char) : Bool := subOccurs "token".data (lcs s)

/-- Matcher for `/private[_-]?key/i`. -/
def mPrivateKey (s : List Char) : Bool :=
  let l := lcs s
  (List.range (l.length + 1)).any fun i =>
    prefLit "private".data (l.drop i) &&
      (prefLit "key".data (l.drop (i + 7)) ||
        (((l.get? (i + 7) == some '_') || (l.get? (i + 7) == some '-')) &&
          prefLit "key".data (l.drop (i + 8))))

/-- Matcher for `/[a-f0-9]\x7b32,\x7d/i` (a run of at least 32 hexadecimal
characters). -/
def mHexRun (s : List Char) : Bool :=
  let l := lcs s
  (List.range (l.length + 1)).any fun i =>
    ((l.drop i).take 32).length == 32 && ((l.drop i).take 32).all isHexLC

/-- The `sensitivePatterns` table: regex source text paired with its
matcher, in the order of the source. -/
def sensitivePatterns : List (String × (List Char → Bool)) :=
  [("api[_-]?key", mApiKey),
   ("secret", mSecret),
   ("password", mPassword),
   ("token", mToken),
   ("private[_-]?key", mPrivateKey),
   ("[a-f0-9]\x7b32,\x7d", mHexRun)]

/-- Result shape of the security check. -/
structure SecurityResult where
  valid : Bool
  errors : List String
deriving DecidableEq

/-- Embedding of `validateSecurityConstraints`: serialize the whole
configuration and scan it with every sensitive pattern, accumulating one
error per matching pattern. -/
def validateSecurityConstraints (config : SiteConfig) : SecurityResult :=
  let configStr := siteConfigJson config
  let errors :=
    (sensitivePatterns.filter fun pr => pr.2 configStr.data).map fun pr =>
      "Potential sensitive data detected: pattern " ++ pr.1
  ⟨errors.isEmpty, errors⟩

/- ----------------------------------------------------------------- -/
/- Schema check: the Zod `SiteConfigSchema` of `src/lib/schemas.ts`,
   embedded as a validator that returns the list of field-path errors
   (`err.path.join(".")` style paths, as used by `validateArtifact`). -/

/-- A schema violation at a field path. -/
structure FieldError where
  path : String
  msg : String
deriving DecidableEq

/-- Bounds check for `z.string().min(lo).max(hi)`. -/
def checkStr (path : String) (lo hi : Nat) (s : String) : List FieldError :=
  (if s.length < lo then [⟨path, "too short"⟩] else []) ++
  (if hi < s.length then [⟨path, "too long"⟩] else [])

/-- Check for `z.string().min(1)` (no maximum). -/
def checkMin1 (path : String) (s : String) : List FieldError :=
  if s.length < 1 then [⟨path, "too short"⟩] else []

/-- Check for `z.string().max(hi)` (no minimum). -/
def checkMax (path : String) (hi : Nat) (s : String) : List FieldError :=
  if hi < s.length then [⟨path, "too long"⟩] else []

/-- Model of the Zod `z.string().url()` acceptance (`new URL` succeeding):
a nonempty alphabetic scheme followed by a colon and a nonempty rest. -/
def jsURLOk (s : String) : Bool :=
  match s.data with
  | [] => false
  | c :: rest =>
    c.isAlpha &&
      (let scheme := rest.takeWhile fun d => d != ':'
       (rest.drop scheme.length != []) &&
         scheme.all fun d => d.isAlphanum || d == '+' || d == '-' || d == '.')

/-- Model of the contact `phone` pattern `^[+]?[0-9\s\-\(\)]+$`. -/
def phoneOk (s : String) : Bool :=
  let body := if s.data.head? == some '+' then s.data.drop 1 else s.data
  body != [] && body.all fun c =>
    c.isDigit || isWS c || c == '-' || c == '(' || c == ')'

/-- Check one CTA button against `CTASchema`. -/
def checkCTA (path : String) (c : CTA) : List FieldError :=
  checkStr (path ++ ".text") 1 50 c.text ++ checkMin1 (path ++ ".href") c.href

/-- Check a hero block against `HeroSchema`. -/
def checkHero (path : String) (h : Hero) : List FieldError :=
  checkStr (path ++ ".title") 1 60 h.title ++
  checkStr (path ++ ".subtitle") 1 300 h.subtitle ++
  (match h.cta with
   | none => []
   | some p =>
     (match p.primary with
      | none => []
      | some c => checkCTA (path ++ ".cta.primary") c) ++
     (match p.secondary with
      | none => []
      | some c => checkCTA (path ++ ".cta.secondary") c))

/-- Check a feature entry against `FeatureSchema`. -/
def checkFeature (path : String) (f : Feature) : List FieldError :=
  (match f.icon with
   | none => []
   | some ic => checkMax (path ++ ".icon") 10 ic) ++
  checkStr (path ++ ".title") 1 50 f.title ++
  checkStr (path ++ ".description") 1 120 f.description

/-- Check a team member against `TeamMemberSchema`. -/
def checkTeamMember (path : String) (t : TeamMember) : List FieldError :=
  checkMin1 (path ++ ".name") t.name ++
  checkMin1 (path ++ ".role") t.role ++
  (match t.bio with
   | none => []
   | some b => checkMax (path ++ ".bio") 200 b)

/-- Check one indexed element after another, extending the path with the
running index (Zod array element paths). -/
def checkIndexed (chk : String → α → List FieldError) (path : String) :
    Nat → List α → List FieldError
  | _, [] => []
  | i, x :: xs =>
    chk (path ++ "." ++ toString i) x ++ checkIndexed chk path (i + 1) xs

/-- Check a service entry against `ServiceSchema`. -/
def checkService (path : String) (s : Service) : List FieldError :=
  checkStr (path ++ ".title") 1 50 s.title ++
  checkStr (path ++ ".description") 1 200 s.description ++
  (match s.features with
   | none => []
   | some fs =>
     checkIndexed (fun p str => checkMax p 100 str) (path ++ ".features") 0 fs)

/-- Check an image entry against `ImageSchema`. -/
def checkImage (path : String) (im : SiteImage) : List FieldError :=
  (if jsURLOk im.url then [] else [⟨path ++ ".url", "invalid url"⟩]) ++
  checkMin1 (path ++ ".alt") im.alt

/-- Check the home page against `HomePageSchema` (features cardinality is
the hard bound 1–6). -/
def checkHome (path : String) (hp : HomePage) : List FieldError :=
  checkHero (path ++ ".hero") hp.hero ++
  (if hp.features.length < 1 then [⟨path ++ ".features", "too few"⟩] else []) ++
  (if 6 < hp.features.length then [⟨path ++ ".features", "too many"⟩] else []) ++
  checkIndexed checkFeature (path ++ ".features") 0 hp.features

/-- Check the about page against `AboutPageSchema`. -/
def checkAbout (path : String) (a : AboutPage) : List FieldError :=
  (match a.hero with
   | none => []
   | some h => checkHero (path ++ ".hero") h) ++
  (match a.blurb with
   | none => []
   | some b => checkStr (path ++ ".blurb") 1 500 b) ++
  (match a.team with
   | none => []
   | some ts => checkIndexed checkTeamMember (path ++ ".team") 0 ts)

/-- Check the contact page against `ContactPageSchema`. -/
def checkContact (path : String) (ct : ContactPage) : List FieldError :=
  (match ct.hero with
   | none => []
   | some h => checkHero (path ++ ".hero") h) ++
  (match ct.emailPlaceholder with
   | none => []
   | some e => checkStr (path ++ ".emailPlaceholder") 1 100 e) ++
  (match ct.address with
   | none => []
   | some a => checkMax (path ++ ".address") 200 a) ++
  (match ct.phone with
   | none => []
   | some p => if phoneOk p then [] else [⟨path ++ ".phone", "invalid"⟩])

/-- Check the services page against `ServicesPageSchema`. -/
def checkServices (path : String) (sv : ServicesPage) : List FieldError :=
  (match sv.hero with
   | none => []
   | some h => checkHero (path ++ ".hero") h) ++
  (match sv.services with
   | none => []
   | some ss => checkIndexed checkService (path ++ ".services") 0 ss)

/-- Embedding of the schema stage: validation of a configuration against
`SiteConfigSchema`, returning every field-path error (empty list means the
schema check succeeds). -/
def validateSiteConfig (c : SiteConfig) : List FieldError :=
  checkStr "name" 1 100 c.name ++
  checkStr "description" 1 200 c.description ++
  checkHome "pages.home" c.pages.home ++
  (match c.pages.about with
   | none => []
   | some a => checkAbout "pages.about" a) ++
  (match c.pages.contact with
   | none => []
   | some ct => checkContact "pages.contact" ct) ++
  (match c.pages.services with
   | none => []
   | some sv => checkServices "pages.services" sv) ++
  (match c.images with
   | none => []
   | some imgs => checkIndexed checkImage "images" 0 imgs)

/- ----------------------------------------------------------------- -/
/- Name extraction: `extractSiteName` of `src/lib/mcp-client.ts`.  Each
   regular expression of its `patterns` array is embedded as an explicit
   leftmost-match scanner with the same backtracking behaviour. -/

/-- The capture character class `[a-zA-Z\s&]`. -/
def capClass (c : Char) : Bool := c.isAlpha || isWS c || c == '&'

/-- Either quotation mark, the class `["']`. -/
def isQuoteC (c : Char) : Bool := c == '"' || c == '\''

/-- Characters matched by the JavaScript dot (everything except line
terminators). -/
def notNL (c : Char) : Bool :=
  !(c == '\n' || c == '\r' || c == ' ' || c == ' ')

/-- No line terminator between positions `a` (inclusive) and `b`
(exclusive) of `s`. -/
def noNLRange (s : List Char) (a b : Nat) : Bool :=
  ((s.drop a).take (b - a)).all notNL

/-- Patterns 1–3, `/for ["']([^"']+)["']/i` and the `called`/`named`
variants: keyword, a quote, a nonempty quote-free capture, a closing
quote. -/
def quotedAfterKw (kw : List Char) (s : List Char) : Option (List Char) :=
  (List.range (s.length + 1)).findSome? fun i =>
    let t := s.drop i
    if prefCI kw t then
      match t.drop kw.length with
      | [] => none
      | q :: rest =>
        if isQuoteC q then
          let cap := rest.takeWhile fun c => !isQuoteC c
          if cap != [] && rest.drop cap.length != [] then some cap else none
        else none
    else none

/-- Patterns 4–5, `/"([^"]+)"/` and `/'([^']+)'/`: a nonempty span between
two occurrences of the same quote character. -/
def quotedBy (q : Char) (s : List Char) : Option (List Char) :=
  (List.range (s.length + 1)).findSome? fun i =>
    match s.drop i with
    | [] => none
    | c :: rest =>
      if c == q then
        let cap := rest.takeWhile fun d => d != q
        if cap != [] && rest.drop cap.length != [] then some cap else none
      else none

/-- The suffix words of pattern 6 (`co\.?` is matched by its mandatory
prefix `co`; the optional dot only widens the consumed span). -/
def bizSuffixWords : List (List Char) :=
  ["company".data, "corp".data, "inc".data, "llc".data, "studio".data,
   "agency".data, "co".data]

/-- The type words of pattern 9. -/
def typeSuffixWords : List (List Char) :=
  ["studio".data, "agency".data, "consulting".data, "design".data,
   "development".data]

/-- `\s+(word…)` test: at least one whitespace character, then one of the
given words (case-insensitively). -/
def suffixAfterWS (words : List (List Char)) (v : List Char) : Bool :=
  let w := v.takeWhile isWS
  w != [] && words.any fun word => prefCI word (v.drop w.length)

/-- The lazy capture `([A-Z][a-zA-Z\s&]+?)` (case-insensitive, so the head
is any letter) followed by `\s+(word…)`: the shortest capture of length at
least 2 that is followed by whitespace and a suffix word. -/
def lazyCapAt (words : List (List Char)) (u : List Char) : Option (List Char) :=
  match u with
  | [] => none
  | c :: _ =>
    if c.isAlpha then
      (List.range (u.length + 1)).findSome? fun k =>
        if k < 2 then none
        else
          let cap := u.take k
          if cap.length == k && cap.all capClass && suffixAfterWS words (u.drop k)
          then some cap else none
    else none

/-- Pattern 6, `/for ([A-Z][a-zA-Z\s&]+?)(?:\s+(?:company|corp|inc|llc|studio|agency|co\.?))/i`. -/
def forSuffixPat (s : List Char) : Option (List Char) :=
  (List.range (s.length + 1)).findSome? fun i =>
    let t := s.drop i
    if prefCI "for ".data t then lazyCapAt bizSuffixWords (t.drop 4) else none

/-- The greedy capture `([A-Z][a-zA-Z\s&]+)` of patterns 7–8: a letter and
then the maximal run of capture-class characters, at least two characters
in total. -/
def greedyCap (u : List Char) : Option (List Char) :=
  match u with
  | [] => none
  | c :: rest =>
    if c.isAlpha then
      let cap := c :: rest.takeWhile capClass
      if 2 ≤ cap.length then some cap else none
    else none

/-- Patterns 7–8, `/create.*?(?:site|website).*?for ([A-Z][a-zA-Z\s&]+)/i`
and the `build` variant: keyword, a lazy dot-span to `site`/`website`, a
lazy dot-span to `for `, then the greedy capture; each level backtracks to
later positions when an inner step fails. -/
def createForPat (kw : List Char) (s : List Char) : Option (List Char) :=
  (List.range (s.length + 1)).findSome? fun i =>
    if prefCI kw (s.drop i) then
      let base := i + kw.length
      (List.range (s.length + 1)).findSome? fun p =>
        if p < base then none
        else if noNLRange s base p &&
            (prefCI "site".data (s.drop p) || prefCI "website".data (s.drop p)) then
          let q := p + (if prefCI "site".data (s.drop p) then 4 else 7)
          (List.range (s.length + 1)).findSome? fun r =>
            if r < q then none
            else if noNLRange s q r && prefCI "for ".data (s.drop r) then
              greedyCap (s.drop (r + 4))
            else none
        else none
    else none

/-- Pattern 9, `/([A-Z][a-zA-Z\s&]+?)\s+(?:studio|agency|consulting|design|development)/i`. -/
def capTypePat (s : List Char) : Option (List Char) :=
  (List.range (s.length + 1)).findSome? fun i => lazyCapAt typeSuffixWords (s.drop i)

/-- The leading-article strip `replace(/^(the|a|an)\s+/i, "")` (the three
alternatives are mutually exclusive because each requires following
whitespace). -/
def stripArticle (l : List Char) : List Char :=
  let tryArt : List Char → Option (List Char) := fun art =>
    if prefCI art l then
      match l.drop art.length with
      | c :: rest => if isWS c then some ((c :: rest).dropWhile isWS) else none
      | [] => none
    else none
  match tryArt "the".data with
  | some r => r
  | none =>
    match tryArt "a".data with
    | some r => r
    | none =>
      match tryArt "an".data with
      | some r => r
      | none => l

/-- Strip one ending `word` (case-insensitively) together with the
whitespace run before it, provided that run is nonempty. -/
def stripEnding (l : List Char) (w : List Char) : Option (List Char) :=
  if w.length < l.length && prefLit w (lcs (l.drop (l.length - w.length))) then
    let front := l.take (l.length - w.length)
    if front.getLast?.elim false isWS then
      some (front.reverse.dropWhile isWS).reverse
    else none
  else none

/-- The trailing-suffix strip `replace(/\s+(company|corp|inc|llc|co\.?)$/i, "")`
(note: `studio` and `agency` are not stripped). -/
def stripBizSuffix (l : List Char) : List Char :=
  match ["company", "corp", "inc", "llc", "co.", "co"].findSome?
      (fun w => stripEnding l w.data) with
  | some r => r
  | none => l

/-- Normalisation of a raw capture in `extractSiteName`: trim, collapse
whitespace, strip a leading article, strip a trailing `company`-family
suffix. -/
def normalizeCap (raw : List Char) : List Char :=
  stripBizSuffix (stripArticle (wsCollapse (trimWS raw)))

/-- The `patterns` array of `extractSiteName`, in source order. -/
def sitePatterns : List (List Char → Option (List Char)) :=
  [quotedAfterKw "for ".data, quotedAfterKw "called ".data,
   quotedAfterKw "named ".data, quotedBy '"', quotedBy '\'',
   forSuffixPat, createForPat "create".data, createForPat "build".data,
   capTypePat]

/-- One iteration of the `extractSiteName` loop: a pattern is accepted when
its raw capture has length strictly between 2 and 50 and the normalised
name still has length greater than 2. -/
def tryPattern (s : List Char) (pat : List Char → Option (List Char)) :
    Option (List Char) :=
  match pat s with
  | none => none
  | some raw =>
    if 2 < raw.length && raw.length < 50 then
      let nm := normalizeCap raw
      if 2 < nm.length then some nm else none
    else none

/-- Embedding of `extractSiteName`: the first pattern in source order whose
capture is accepted wins; otherwise the result is absent. -/
def extractSiteName (prompt : String) : Option String :=
  (sitePatterns.findSome? (tryPattern prompt.data)).map String.mk

/- ----------------------------------------------------------------- -/
/- The remaining prompt heuristics and the local generation path of
   `src/lib/mcp-client.ts`. -/

/-- The `businessTypes` table of `extractSiteDescription`, in source
order. -/
def businessTypeTable : List (List String × String) :=
  [(["brochure", "business"], "Professional business website"),
   (["portfolio"], "Creative portfolio website showcasing work and expertise"),
   (["consulting", "consultant"], "Strategic consulting services and business solutions"),
   (["studio", "design"], "Creative design studio providing innovative solutions"),
   (["agency", "digital"], "Professional digital agency delivering results-driven solutions"),
   (["restaurant", "cafe", "food"], "Restaurant and dining experience"),
   (["law", "legal", "attorney"], "Professional legal services and expertise"),
   (["medical", "healthcare", "clinic"], "Healthcare and medical services"),
   (["real estate", "property"], "Real estate and property services"),
   (["fitness", "gym", "wellness"], "Fitness and wellness services"),
   (["education", "school", "learning"], "Educational services and programs"),
   (["nonprofit", "charity", "foundation"], "Nonprofit organization making a positive impact")]

/-- Embedding of `extractSiteDescription`: first table entry with a keyword
occurring in the lowercased prompt. -/
def extractSiteDescription (prompt : String) : Option String :=
  businessTypeTable.findSome? fun entry =>
    if entry.1.any (fun kw => containsKeyword prompt kw) then some entry.2
    else none

/-- Embedding of `extractHeroTitle`. -/
def extractHeroTitle (prompt : String) : Option String :=
  let siteName := extractSiteName prompt
  let has := fun kw => containsKeyword prompt kw
  if has "portfolio" then
    some (siteName.elim "Creative Portfolio" fun n => n ++ " Portfolio")
  else if has "consulting" then
    some (siteName.elim "Expert Consulting Services" fun n => "Expert Consulting from " ++ n)
  else if has "studio" || has "design" then
    some (siteName.elim "Creative Design Solutions" fun n => "Creative Solutions by " ++ n)
  else if has "agency" then
    some (siteName.elim "Digital Agency Services" fun n => n ++ " Digital Agency")
  else if has "restaurant" || has "cafe" then
    some (siteName.elim "Exceptional Dining Experience" fun n => "Welcome to " ++ n)
  else siteName.map fun n => "Welcome to " ++ n

/-- Embedding of `extractHeroSubtitle`. -/
def extractHeroSubtitle (prompt : String) : Option String :=
  let has := fun kw => containsKeyword prompt kw
  if has "studio" || has "design" then
    some "We transform your vision into stunning digital experiences that captivate and convert."
  else if has "consulting" then
    some "Strategic consulting services to optimize operations, increase profitability, and drive growth."
  else if has "portfolio" then
    some "Showcasing innovative projects and creative solutions that make an impact."
  else if has "agency" then
    some "Professional digital services to help your business succeed in the modern marketplace."
  else if has "restaurant" || has "cafe" then
    some "Crafting memorable dining experiences with exceptional food and outstanding service."
  else if has "law" || has "legal" then
    some "Providing expert legal counsel and representation with integrity and dedication."
  else if has "medical" || has "healthcare" then
    some "Comprehensive healthcare services focused on your well-being and recovery."
  else none

/-- The `design` feature set of `generateFeatures` (icon strings carry the
exact code points of the source file). -/
def designFeatures : List Feature :=
  [⟨some "üé®", "Brand Design",
    "Complete brand identity packages including logos, typography, and visual guidelines."⟩,
   ⟨some "üíª", "Web Development",
    "Modern, responsive websites built with cutting-edge technology and optimization."⟩,
   ⟨some "üì±", "Digital Strategy",
    "Data-driven marketing strategies to reach and engage the right audience effectively."⟩,
   ⟨some "üöÄ", "User Experience",
    "Intuitive user interfaces designed to enhance engagement and conversion rates."⟩]

/-- The `consulting` feature set of `generateFeatures`. -/
def consultingFeatures : List Feature :=
  [⟨some "üìä", "Strategic Planning",
    "Comprehensive business strategy development to align operations with growth objectives."⟩,
   ⟨some "‚ö°", "Process Optimization",
    "Streamline operations and eliminate inefficiencies to boost productivity and performance."⟩,
   ⟨some "üìà", "Performance Analytics",
    "Data-driven insights and KPI tracking to measure success and identify opportunities."⟩,
   ⟨some "üéØ", "Market Research",
    "In-depth market analysis to understand trends, competition, and opportunities."⟩]

/-- The `agency` feature set of `generateFeatures`. -/
def agencyFeatures : List Feature :=
  [⟨some "‚ö°", "Fast Development",
    "Rapid prototyping and development cycles to get your project to market quickly."⟩,
   ⟨some "üõ°Ô∏è", "Secure & Scalable",
    "Enterprise-grade security and architecture designed to grow with your business."⟩,
   ⟨some "üéØ", "Custom Solutions",
    "Tailored applications built specifically for your business requirements and goals."⟩]

/-- The `restaurant` feature set of `generateFeatures`. -/
def restaurantFeatures : List Feature :=
  [⟨some "üçΩÔ∏è", "Exceptional Dining",
    "Carefully crafted dishes using the finest ingredients and innovative techniques."⟩,
   ⟨some "üèÜ", "Award-Winning Service",
    "Professional staff dedicated to creating memorable dining experiences."⟩,
   ⟨some "üåü", "Ambiance & Atmosphere",
    "Thoughtfully designed spaces that enhance every aspect of your visit."⟩]

/-- The `legal` feature set of `generateFeatures`. -/
def legalFeatures : List Feature :=
  [⟨some "‚öñÔ∏è", "Expert Representation",
    "Experienced legal counsel with a proven track record of successful outcomes."⟩,
   ⟨some "üõ°Ô∏è", "Comprehensive Protection",
    "Full-service legal support to protect your interests and minimize risk."⟩,
   ⟨some "üìã", "Strategic Guidance",
    "Clear, actionable legal advice to help you make informed decisions."⟩]

/-- The default professional feature set of `generateFeatures`. -/
def defaultFeatures : List Feature :=
  [⟨some "üéØ", "Professional Service",
    "High-quality solutions tailored to your specific business needs and requirements."⟩,
   ⟨some "üë•", "Expert Team",
    "Experienced professionals dedicated to delivering exceptional results for your projects."⟩,
   ⟨some "üõ†Ô∏è", "Reliable Support",
    "Ongoing support and maintenance to ensure your solutions continue to perform optimally."⟩]

/-- Embedding of `generateFeatures`: select the business-type feature set
from the lowercased prompt and return the first
`min(count, selected.length)` entries. -/
def generateFeatures (prompt : String) (count : Nat) : List Feature :=
  let has := fun kw => containsKeyword prompt kw
  let selected :=
    if has "studio" || has "design" || has "portfolio" then designFeatures
    else if has "consulting" || has "consultant" then consultingFeatures
    else if has "agency" || has "development" then agencyFeatures
    else if has "restaurant" || has "cafe" || has "food" then restaurantFeatures
    else if has "law" || has "legal" || has "attorney" then legalFeatures
    else defaultFeatures
  selected.take (min count selected.length)

/-- Options of `generateSiteConfig` (the `prompt` member of the source
interface is never read and is omitted). -/
structure GenerateSiteConfigOptions where
  maxFeatures : Option Nat
  includeImages : Option Bool
  format : Option String
deriving DecidableEq

/-- Response envelope of the MCP client (the informational `metadata`
member, a wall-clock timestamp, is outside the embedded state). -/
structure MCPResponse where
  success : Bool
  data : Option SiteConfig
  error : Option String
deriving DecidableEq

/-- Empty options object `{}`. -/
def defaultGenOptions : GenerateSiteConfigOptions := ⟨none, none, none⟩

/-- `options.maxFeatures || 3` (JavaScript falsy semantics: absent or zero
gives 3). -/
def effMaxFeatures (o : GenerateSiteConfigOptions) : Nat :=
  match o.maxFeatures with
  | none => 3
  | some n => if n == 0 then 3 else n

/-- The configuration object built by the local generation path of
`generateSiteConfig` (lines building `siteConfig` plus the `about` and
`contact` additions). -/
def buildLocalConfig (prompt : String) (options : GenerateSiteConfigOptions) :
    SiteConfig :=
  ⟨(extractSiteName prompt).getD "Generated Site",
   (extractSiteDescription prompt).getD "Site generated from MCP prompt",
   ⟨⟨⟨(extractHeroTitle prompt).getD "Welcome to Our Site",
      (extractHeroSubtitle prompt).getD
        "Professional services and solutions for your business needs.",
      none⟩,
     generateFeatures prompt (effMaxFeatures options)⟩,
    (if containsKeyword prompt "about" then
      some ⟨none, some "We are a professional company dedicated to excellence.", none⟩
     else none),
    (if containsKeyword prompt "contact" then
      some ⟨none, some "Enter your email address", none, none⟩
     else none),
    none⟩,
   none⟩

/-- Embedding of the local `generateSiteConfig`: the empty/whitespace gate,
the 1000-character cap, then generation followed by the built-in schema
validation (`validateArtifact` without a schema path). -/
def generateSiteConfig (prompt : String) (options : GenerateSiteConfigOptions) :
    MCPResponse :=
  if (trimWS prompt.data).length == 0 then
    ⟨false, none, some "Prompt is required"⟩
  else if 1000 < prompt.length then
    ⟨false, none, some "Prompt is too long (max 1000 characters)"⟩
  else
    let siteConfig := buildLocalConfig prompt options
    let errors := validateSiteConfig siteConfig
    if errors.isEmpty then ⟨true, some siteConfig, none⟩
    else
      ⟨false, none,
       some ("Generated config failed validation: " ++
         String.intercalate ", " (errors.map fun e => e.path ++ ": " ++ e.msg))⟩

/- ----------------------------------------------------------------- -/
/- Webhook signature verification, `verifyWebhookSignature` of
   `src/lib/mcp-client.ts`. -/

/-- Value of one hexadecimal digit (Node accepts both cases). -/
def hexVal (c : Char) : Option Nat :=
  if '0' ≤ c && c ≤ '9' then some (c.toNat - 48)
  else if 'a' ≤ c && c ≤ 'f' then some (c.toNat - 87)
  else if 'A' ≤ c && c ≤ 'F' then some (c.toNat - 55)
  else none

/-- Node's lenient `Buffer.from(s, "hex")`: decode pairs of hexadecimal
digits from the left and stop at the first character that cannot be
decoded (a trailing half pair is dropped). -/
def nodeHexDecode : List Char → List Nat
  | a :: b :: rest =>
    match hexVal a, hexVal b with
    | some x, some y => (16 * x + y) :: nodeHexDecode rest
    | _, _ => []
  | _ => []

/-- JavaScript `s.replace(pat, "")` with a string pattern: remove the first
occurrence only. -/
def replaceFirst (s pat : String) : String :=
  match firstIdxOfSub s.data pat.data with
  | none => s
  | some i => String.mk (s.data.take i ++ s.data.drop (i + pat.data.length))

/-- Embedding of `verifyWebhookSignature`, parametric in `hmacHex`, the
hex digest function `crypto.createHmac("sha256", secret).update(payload).digest("hex")`
of node:crypto (an external collaborator of the repository; the spec fixes
only that it is the HMAC-SHA-256 hex digest of the payload keyed by the
secret).  An empty secret throws and is caught, giving `false`; a length
mismatch between the decoded buffers makes `timingSafeEqual` throw, also
caught as `false`. -/
def verifyWebhookSignature (hmacHex : String → String → String)
    (payload signature secret : String) : Bool :=
  if secret == "" then false
  else
    let expectedSignature := hmacHex secret payload
    let providedSignature := replaceFirst signature "sha256="
    let eb := nodeHexDecode expectedSignature.data
    let pb := nodeHexDecode providedSignature.data
    if eb.length == pb.length then eb == pb else false

/- ----------------------------------------------------------------- -/
/- Claim-side model of name extraction, following the words of the
   specification (quoted text first; then `for`/`called`/`named` followed
   by a capitalized phrase optionally ending in a business-suffix word;
   then a capitalized phrase followed by a type word; normalisation strips
   a trailing business-suffix word from the spec list, which includes
   `studio` and `agency`).  It is used only to state claim C3 precisely
   and is deliberately distinct from the source embedding above. -/

/-- Claimed pattern 1: the first span enclosed in quotation marks. -/
def claimQuoted (s : List Char) : Option (List Char) :=
  (List.range (s.length + 1)).findSome? fun i =>
    match s.drop i with
    | [] => none
    | c :: rest =>
      if isQuoteC c then
        let cap := rest.takeWhile fun d => d != c
        if cap != [] && rest.drop cap.length != [] then some cap else none
      else none

/-- Claimed pattern 2: `for`/`called`/`named` followed by a capitalized
phrase (greedy run of letters, whitespace and ampersands starting with an
uppercase letter); an optional trailing business-suffix word is part of
the phrase and handled by normalisation. -/
def claimKeywordCap (s : List Char) : Option (List Char) :=
  (List.range (s.length + 1)).findSome? fun i =>
    let t := s.drop i
    (["for ".data, "called ".data, "named ".data].findSome? fun kw =>
      if prefCI kw t then
        match t.drop kw.length with
        | [] => none
        | c :: rest =>
          if c.isUpper then some (c :: rest.takeWhile capClass) else none
      else none)

/-- Claimed pattern 3: a capitalized phrase followed by
`studio`/`agency`/`consulting`/`design`/`development`. -/
def claimTypeCap (s : List Char) : Option (List Char) :=
  (List.range (s.length + 1)).findSome? fun i =>
    match s.drop i with
    | [] => none
    | c :: _ =>
      if c.isUpper then lazyCapAt typeSuffixWords (s.drop i) else none

/-- The spec's business-suffix word list
(company/corp/inc/llc/studio/agency/co). -/
def claimSuffixWords : List String :=
  ["company", "corp", "inc", "llc", "studio", "agency", "co"]

/-- Claimed normalisation: collapse whitespace, strip a leading article,
strip a trailing business-suffix word from the spec list. -/
def claimNormalize (raw : List Char) : List Char :=
  match (claimSuffixWords.findSome? fun w =>
      stripEnding (stripArticle (wsCollapse (trimWS raw))) w.data) with
  | some r => r
  | none => stripArticle (wsCollapse (trimWS raw))

/-- Name extraction as described by the claim: first pattern, in the
claimed priority order, producing a match of raw length strictly between
2 and 50; the winning match is normalised. -/
def extractSiteNameClaimed (prompt : String) : Option String :=
  (([claimQuoted, claimKeywordCap, claimTypeCap].findSome? fun pat =>
    match pat prompt.data with
    | none => none
    | some raw =>
      if 2 < raw.length && raw.length < 50 then some (claimNormalize raw)
      else none)).map String.mk

/- ----------------------------------------------------------------- -/
/- Sanitization: `src/lib/sanitization.ts`.  The `dangerousPatterns`
   regular expressions are embedded as match-at-position functions
   returning the length of the (deterministic) match starting there. -/

/-- The JavaScript `\w` class `[A-Za-z0-9_]`. -/
def isWordC (c : Char) : Bool := c.isAlphanum || c == '_'

/-- Matcher for tag-pair patterns such as `/<script[^>]*>.*?<\/script>/gi`:
the opening literal, a greedy attribute run up to `>`, then the shortest
dot-span (no line terminators) to the closing literal. -/
def tagPairAt (openTag closeTag : List Char) (s : List Char) : Option Nat :=
  if prefCI openTag s then
    let u := s.drop openTag.length
    let attrs := u.takeWhile fun c => c != '>'
    match u.drop attrs.length with
    | [] => none
    | _ :: body =>
      (List.range (body.length + 1)).findSome? fun m =>
        if (body.take m).all notNL && prefCI closeTag (body.drop m) then
          some (openTag.length + attrs.length + 1 + m + closeTag.length)
        else none
  else none

/-- Matcher for `/<embed[^>]*>/gi`: the opening literal, attributes, one
closing angle bracket. -/
def simpleTagAt (openTag : List Char) (s : List Char) : Option Nat :=
  if prefCI openTag s then
    let u := s.drop openTag.length
    let attrs := u.takeWhile fun c => c != '>'
    match u.drop attrs.length with
    | [] => none
    | _ :: _ => some (openTag.length + attrs.length + 1)
  else none

/-- Matcher for a case-insensitive literal such as `/javascript:/gi`. -/
def litAt (lit : List Char) (s : List Char) : Option Nat :=
  if prefCI lit s then some lit.length else none

/-- Matcher for `/data:(?!image\/)/gi`: the literal `data:` not followed by
`image/`. -/
def dataNotImageAt (s : List Char) : Option Nat :=
  if prefCI "data:".data s && !prefCI "image/".data (s.drop 5) then some 5
  else none

/-- Matcher for `/on\w+\s*=/gi`: `on`, a nonempty word run, optional
whitespace, an equals sign. -/
def onAttrAt (s : List Char) : Option Nat :=
  if prefCI "on".data s then
    let w := (s.drop 2).takeWhile isWordC
    if w != [] then
      let ws := (s.drop (2 + w.length)).takeWhile isWS
      if (s.drop (2 + w.length + ws.length)).head? == some '=' then
        some (2 + w.length + ws.length + 1)
      else none
    else none
  else none

/-- The `dangerousPatterns` table of `sanitizeTextContent`, in source
order. -/
def dangerousPatternList : List (List Char → Option Nat) :=
  [tagPairAt "<script".data "</script>".data,
   tagPairAt "<iframe".data "</iframe>".data,
   simpleTagAt "<embed".data,
   tagPairAt "<object".data "</object>".data,
   litAt "javascript:".data,
   litAt "vbscript:".data,
   dataNotImageAt,
   onAttrAt]

/-- Leftmost match of a pattern: position and length. -/
def firstMatch (pm : List Char → Option Nat) (s : List Char) :
    Option (Nat × Nat) :=
  (List.range s.length).findSome? fun i => (pm (s.drop i)).map fun len => (i, len)

/-- Fuelled worker for global replacement by the empty string. -/
def removeAllAux : Nat → (List Char → Option Nat) → List Char → List Char
  | 0, _, s => s
  | fuel + 1, pm, s =>
    match firstMatch pm s with
    | none => s
    | some (i, len) => s.take i ++ removeAllAux fuel pm (s.drop (i + len))

/-- `replace(pattern, "")` with the `g` flag: remove every non-overlapping
leftmost match, scanning left to right (every pattern in the table matches
at least one character, so the fuel suffices). -/
def removeAll (pm : List Char → Option Nat) (s : List Char) : List Char :=
  removeAllAux (s.length + 1) pm s

/-- State of the per-field pattern loop of `cleanText`. -/
structure TextScan where
  cur : List Char
  warns : List String
  hit : Bool
deriving DecidableEq

/-- One pattern iteration of `cleanText`: when the pattern matches, all its
occurrences are removed and one warning is recorded with the first match
(truncated to 50 characters). -/
def cleanStep (fieldName : String) (st : TextScan)
    (pm : List Char → Option Nat) : TextScan :=
  match firstMatch pm st.cur with
  | none => st
  | some (i, len) =>
    ⟨removeAll pm st.cur,
     st.warns ++
       ["Removed dangerous content from " ++ fieldName ++ ": " ++
         String.mk (((st.cur.drop i).take len).take 50) ++ "..."],
     true⟩

/-- Embedding of `cleanText`: run all dangerous patterns, then collapse
whitespace and trim; the changed flag also fires when the normalised text
differs from the original. -/
def cleanText (fieldName : String) (text : String) :
    String × List String × Bool :=
  let res := dangerousPatternList.foldl (cleanStep fieldName) ⟨text.data, [], false⟩
  let trimmed := collapseTrim res.cur
  (String.mk trimmed, res.warns, res.hit || (String.mk trimmed != text))

/-- `cleanText` applied to the title and description of the feature at
index `i`. -/
def cleanFeature (i : Nat) (f : Feature) : Feature × List String × Bool :=
  let t := cleanText ("features[" ++ toString i ++ "].title") f.title
  let d := cleanText ("features[" ++ toString i ++ "].description") f.description
  (⟨f.icon, t.1, d.1⟩, t.2.1 ++ d.2.1, t.2.2 || d.2.2)

/-- Embedding of `sanitizeTextContent`: clean name, description, hero
title and subtitle, and every feature in order. -/
def sanitizeTextContent (config : SiteConfig) :
    SiteConfig × List String × Bool :=
  let n := cleanText "name" config.name
  let d := cleanText "description" config.description
  let ht := cleanText "hero.title" config.pages.home.hero.title
  let hs := cleanText "hero.subtitle" config.pages.home.hero.subtitle
  let fs := config.pages.home.features.enum.map fun pr => cleanFeature pr.1 pr.2
  (⟨n.1, d.1,
    ⟨⟨⟨ht.1, hs.1, config.pages.home.hero.cta⟩, fs.map fun t => t.1⟩,
     config.pages.about, config.pages.contact, config.pages.services⟩,
    config.images⟩,
   n.2.1 ++ d.2.1 ++ ht.2.1 ++ hs.2.1 ++ fs.flatMap fun t => t.2.1,
   n.2.2 || d.2.2 || ht.2.2 || hs.2.2 || fs.any fun t => t.2.2)

/-- Options of `sanitizeSiteConfig` (`strictMode` is declared but never
read by the source). -/
structure SanitizationOptions where
  allowExternalLinks : Option Bool
  maxUrlLength : Option Nat
  allowedDomains : Option (List String)
  strictMode : Option Bool
deriving DecidableEq

/-- Empty options object `{}`. -/
def defaultSanOptions : SanitizationOptions := ⟨none, none, none, none⟩

/-- `options.maxUrlLength || 200` (JavaScript falsy semantics). -/
def effMaxUrl (o : SanitizationOptions) : Nat :=
  match o.maxUrlLength with
  | none => 200
  | some n => if n == 0 then 200 else n

/-- `options.allowExternalLinks ?? true`. -/
def effAllowExternal (o : SanitizationOptions) : Bool :=
  o.allowExternalLinks.getD true

/-- `options.allowedDomains || []`. -/
def effDomains (o : SanitizationOptions) : List String :=
  o.allowedDomains.getD []

/-- Modelled from the spec: the WHATWG `new URL(url).hostname` used by the
domain allow-list branch is platform code, not repository code; the spec
only requires comparing "a URL's host" against the allow-list.  The model
accepts `http`/`https` URLs, returns the lowercased authority before the
first delimiter, and is absent (the parser throws) otherwise. -/
def urlHostname (u : String) : Option String :=
  let hostFrom : List Char → Option String := fun rest =>
    let h := rest.takeWhile fun c => !(c == '/' || c == ':' || c == '?' || c == '#')
    if h == [] then none else some (String.mk (lcs h))
  if prefCI "http://".data u.data then hostFrom (u.data.drop 7)
  else if prefCI "https://".data u.data then hostFrom (u.data.drop 8)
  else none

/-- The dangerous-protocol test `^(javascript|vbscript|data):/i` of
`validateUrl`. -/
def dangerProtocol (u : String) : Bool :=
  prefCI "javascript:".data u.data || prefCI "vbscript:".data u.data ||
    prefCI "data:".data u.data

/-- The tail of `validateUrl` after the protocol/external/allow-list
branches: length enforcement, then slash-prefixing of relative paths. -/
def urlTail (opts : SanitizationOptions) (fieldName : String) (url : String) :
    String × List String × Bool :=
  if effMaxUrl opts < url.length then
    (String.mk (url.data.take (effMaxUrl opts)),
     ["Truncated long URL in " ++ fieldName], true)
  else if !strStarts "/" url && !strStarts "http" url then
    ("/" ++ url, [], false)
  else (url, [], false)

/-- Embedding of `validateUrl`; absent result models the exception thrown
by `new URL` inside the allow-list branch. -/
def validateUrlField (opts : SanitizationOptions) (fieldName : String)
    (url : String) : Option (String × List String × Bool) :=
  if dangerProtocol url then
    some ("/", ["Removed dangerous protocol from " ++ fieldName], true)
  else if strStarts "http" url && !effAllowExternal opts then
    some ("/", ["Converted external link to internal: " ++ fieldName], true)
  else if strStarts "http" url && !(effDomains opts).isEmpty then
    match urlHostname url with
    | none => none
    | some domain =>
      if !(effDomains opts).contains domain then
        some ("/", ["Blocked non-whitelisted domain: " ++ domain], true)
      else some (urlTail opts fieldName url)
  else some (urlTail opts fieldName url)

/-- `validateUrl` applied to the href of one optional CTA slot (skipped for
an absent CTA or an empty href, per the optional-chaining truthiness
test). -/
def sanitizeCTAHref (opts : SanitizationOptions) (fieldName : String)
    (c : Option CTA) : Option (Option CTA × List String × Bool) :=
  match c with
  | none => some (none, [], false)
  | some cta =>
    if cta.href == "" then some (some cta, [], false)
    else
      match validateUrlField opts fieldName cta.href with
      | none => none
      | some r => some (some ⟨cta.text, r.1⟩, r.2.1, r.2.2)

/-- Embedding of `sanitizeUrls`: only the two CTA hrefs of the home hero
are touched. -/
def sanitizeUrls (config : SiteConfig) (options : SanitizationOptions) :
    Option (SiteConfig × List String × Bool) :=
  match config.pages.home.hero.cta with
  | none => some (config, [], false)
  | some pair =>
    match sanitizeCTAHref options "hero.cta.primary.href" pair.primary with
    | none => none
    | some p =>
      match sanitizeCTAHref options "hero.cta.secondary.href" pair.secondary with
      | none => none
      | some sdy =>
        some
          (⟨config.name, config.description,
            ⟨⟨⟨config.pages.home.hero.title, config.pages.home.hero.subtitle,
               some ⟨p.1, sdy.1⟩⟩,
              config.pages.home.features⟩,
             config.pages.about, config.pages.contact, config.pages.services⟩,
            config.images⟩,
           p.2.1 ++ sdy.2.1, p.2.2 || sdy.2.2)

/-- Embedding of `truncateField`: truncate to the limit and trim, recording
the before/after lengths in the warning. -/
def truncF (maxLength : Nat) (fieldName : String) (text : String) :
    String × List String × Bool :=
  if maxLength < text.length then
    (String.mk (trimWS (text.data.take maxLength)),
     ["Truncated " ++ fieldName ++ " from " ++ toString text.length ++ " to " ++
       toString maxLength ++ " characters"],
     true)
  else (text, [], false)

/-- Length enforcement for one optional CTA slot (text field, limit 50,
skipped when the text is empty). -/
def limitCTA (fieldName : String) (c : Option CTA) :
    Option CTA × List String × Bool :=
  match c with
  | none => (none, [], false)
  | some cta =>
    if cta.text == "" then (some cta, [], false)
    else
      let r := truncF 50 fieldName cta.text
      (some ⟨r.1, cta.href⟩, r.2.1, r.2.2)

/-- Length enforcement for the feature at index `i` (title 50,
description 120, icon hard-capped at 10 without trimming). -/
def limitFeature (i : Nat) (f : Feature) : Feature × List String × Bool :=
  let t := truncF 50 ("features[" ++ toString i ++ "].title") f.title
  let d := truncF 120 ("features[" ++ toString i ++ "].description") f.description
  let ico : Option String × List String × Bool :=
    match f.icon with
    | none => (none, [], false)
    | some ic =>
      if ic != "" && 10 < ic.length then
        (some (String.mk (ic.data.take 10)),
         ["Truncated feature[" ++ toString i ++ "].icon to 10 characters"], true)
      else (some ic, [], false)
  (⟨ico.1, t.1, d.1⟩, t.2.1 ++ d.2.1 ++ ico.2.1, t.2.2 || d.2.2 || ico.2.2)

/-- Length enforcement for an optional string field, skipped when absent or
empty (optional-chaining truthiness). -/
def limitOptStr (maxLength : Nat) (fieldName : String) (o : Option String) :
    Option String × List String × Bool :=
  match o with
  | none => (none, [], false)
  | some s =>
    if s == "" then (some s, [], false)
    else
      let r := truncF maxLength fieldName s
      (some r.1, r.2.1, r.2.2)

/-- Length enforcement for the optional CTA pair of the home hero. -/
def limitCTAPair (o : Option CTAPair) : Option CTAPair × List String × Bool :=
  match o with
  | none => (none, [], false)
  | some pair =>
    let p := limitCTA "hero.cta.primary.text" pair.primary
    let s := limitCTA "hero.cta.secondary.text" pair.secondary
    (some ⟨p.1, s.1⟩, p.2.1 ++ s.2.1, p.2.2 || s.2.2)

/-- Length enforcement for the optional about page (blurb, limit 500). -/
def limitAbout (o : Option AboutPage) : Option AboutPage × List String × Bool :=
  match o with
  | none => (none, [], false)
  | some a =>
    let b := limitOptStr 500 "about.blurb" a.blurb
    (some ⟨a.hero, b.1, a.team⟩, b.2.1, b.2.2)

/-- Length enforcement for the optional contact page (email placeholder,
limit 100). -/
def limitContact (o : Option ContactPage) : Option ContactPage × List String × Bool :=
  match o with
  | none => (none, [], false)
  | some c =>
    let e := limitOptStr 100 "contact.emailPlaceholder" c.emailPlaceholder
    (some ⟨c.hero, e.1, c.address, c.phone⟩, e.2.1, e.2.2)

/-- Embedding of `enforceCharacterLimits`. -/
def enforceCharacterLimits (config : SiteConfig) :
    SiteConfig × List String × Bool :=
  let n := truncF 100 "name" config.name
  let d := truncF 200 "description" config.description
  let hero := config.pages.home.hero
  let ht := truncF 60 "hero.title" hero.title
  let hs := truncF 300 "hero.subtitle" hero.subtitle
  let cta := limitCTAPair hero.cta
  let fs := config.pages.home.features.enum.map fun pr => limitFeature pr.1 pr.2
  let ab := limitAbout config.pages.about
  let ct := limitContact config.pages.contact
  (⟨n.1, d.1,
    ⟨⟨⟨ht.1, hs.1, cta.1⟩, fs.map fun t => t.1⟩, ab.1, ct.1,
     config.pages.services⟩,
    config.images⟩,
   n.2.1 ++ d.2.1 ++ ht.2.1 ++ hs.2.1 ++ cta.2.1 ++
     (fs.flatMap fun t => t.2.1) ++ ab.2.1 ++ ct.2.1,
   n.2.2 || d.2.2 || ht.2.2 || hs.2.2 || cta.2.2 ||
     (fs.any fun t => t.2.2) || ab.2.2 || ct.2.2)

/-- Result shape of `sanitizeSiteConfig`. -/
structure SanitizationResult where
  sanitized : SiteConfig
  warnings : List String
  changed : Bool
deriving DecidableEq

/-- Embedding of `sanitizeSiteConfig`: text cleaning, URL sanitization,
length enforcement; each stage's warnings are appended only when that
stage reports a change (as in the source), and the changed flag is their
disjunction.  The result is absent exactly when the allow-list branch
throws on an unparsable URL (the source has no handler for it). -/
def sanitizeSiteConfig (config : SiteConfig) (options : SanitizationOptions) :
    Option SanitizationResult :=
  let t := sanitizeTextContent config
  match sanitizeUrls t.1 options with
  | none => none
  | some u =>
    let l := enforceCharacterLimits u.1
    some ⟨l.1,
          (if t.2.2 then t.2.1 else []) ++ (if u.2.2 then u.2.1 else []) ++
            (if l.2.2 then l.2.1 else []),
          t.2.2 || u.2.2 || l.2.2⟩

/- ----------------------------------------------------------------- -/
/- Declarative bound predicates for the schema claim (stated from the
   specification's data-model section, independently of the validator's
   error accumulation). -/

/-- Spec bounds for a CTA button: text 1–50, href non-empty. -/
def CTAOK (c : CTA) : Prop :=
  1 ≤ c.text.length ∧ c.text.length ≤ 50 ∧ 1 ≤ c.href.length

/-- Spec bounds for a hero: title 1–60, subtitle 1–300, CTA bounds when
present. -/
def HeroOK (h : Hero) : Prop :=
  1 ≤ h.title.length ∧ h.title.length ≤ 60 ∧
  1 ≤ h.subtitle.length ∧ h.subtitle.length ≤ 300 ∧
  (∀ p, h.cta = some p →
    (∀ c, p.primary = some c → CTAOK c) ∧
    (∀ c, p.secondary = some c → CTAOK c))

/-- Spec bounds for a feature: icon at most 10, title 1–50,
description 1–120. -/
def FeatureOK (f : Feature) : Prop :=
  (∀ ic, f.icon = some ic → ic.length ≤ 10) ∧
  1 ≤ f.title.length ∧ f.title.length ≤ 50 ∧
  1 ≤ f.description.length ∧ f.description.length ≤ 120

/-- Spec bounds for a team member. -/
def TeamMemberOK (t : TeamMember) : Prop :=
  1 ≤ t.name.length ∧ 1 ≤ t.role.length ∧
  (∀ b, t.bio = some b → b.length ≤ 200)

/-- Spec bounds for a service entry. -/
def ServiceOK (s : Service) : Prop :=
  1 ≤ s.title.length ∧ s.title.length ≤ 50 ∧
  1 ≤ s.description.length ∧ s.description.length ≤ 200 ∧
  (∀ fs, s.features = some fs → ∀ x ∈ fs, x.length ≤ 100)

/-- Spec bounds for the home page, including the hard features
cardinality 1–6. -/
def HomeOK (hp : HomePage) : Prop :=
  HeroOK hp.hero ∧ 1 ≤ hp.features.length ∧ hp.features.length ≤ 6 ∧
  ∀ f ∈ hp.features, FeatureOK f

/-- Spec bounds for the about page. -/
def AboutOK (a : AboutPage) : Prop :=
  (∀ h, a.hero = some h → HeroOK h) ∧
  (∀ b, a.blurb = some b → 1 ≤ b.length ∧ b.length ≤ 500) ∧
  (∀ ts, a.team = some ts → ∀ t ∈ ts, TeamMemberOK t)

/-- Spec bounds for the contact page. -/
def ContactOK (ct : ContactPage) : Prop :=
  (∀ h, ct.hero = some h → HeroOK h) ∧
  (∀ e, ct.emailPlaceholder = some e → 1 ≤ e.length ∧ e.length ≤ 100) ∧
  (∀ a, ct.address = some a → a.length ≤ 200) ∧
  (∀ p, ct.phone = some p → phoneOk p = true)

/-- Spec bounds for the services page. -/
def ServicesOK (sv : ServicesPage) : Prop :=
  (∀ h, sv.hero = some h → HeroOK h) ∧
  (∀ ss, sv.services = some ss → ∀ s ∈ ss, ServiceOK s)

/-- Spec bounds for an image: well-formed URL, non-empty alt text. -/
def ImageOK (im : SiteImage) : Prop :=
  jsURLOk im.url = true ∧ 1 ≤ im.alt.length

/-- All data-model invariants of a site configuration: every required
field within its documented bound, features cardinality 1–6, URL fields
well-formed. -/
def SchemaOK (c : SiteConfig) : Prop :=
  1 ≤ c.name.length ∧ c.name.length ≤ 100 ∧
  1 ≤ c.description.length ∧ c.description.length ≤ 200 ∧
  HomeOK c.pages.home ∧
  (∀ a, c.pages.about = some a → AboutOK a) ∧
  (∀ ct, c.pages.contact = some ct → ContactOK ct) ∧
  (∀ sv, c.pages.services = some sv → ServicesOK sv) ∧
  (∀ imgs, c.images = some imgs → ∀ im ∈ imgs, ImageOK im)

/- ----------------------------------------------------------------- -/
/- Hypothesis predicates for the sanitization claims. -/

/-- No dangerous pattern matches anywhere in the text. -/
def noDangerStr (t : String) : Bool :=
  dangerousPatternList.all fun pm => (firstMatch pm t.data).isNone

/-- No dangerous pattern matches in any text field processed by
`sanitizeTextContent`. -/
def cfgNoDanger (c : SiteConfig) : Bool :=
  noDangerStr c.name && noDangerStr c.description &&
  noDangerStr c.pages.home.hero.title &&
  noDangerStr c.pages.home.hero.subtitle &&
  c.pages.home.features.all fun f =>
    noDangerStr f.title && noDangerStr f.description

/-- A CTA href in the canonical form produced by `validateUrl` when it no
longer rewrites it: a leading slash, or an `http` link while external
links are allowed; and within the URL length limit. -/
def hrefCanonical (opts : SanitizationOptions) (u : String) : Bool :=
  (strStarts "/" u || (strStarts "http" u && effAllowExternal opts)) &&
    decide (u.length ≤ effMaxUrl opts)

/-- Canonical-href condition for one optional CTA slot (empty hrefs are
never touched). -/
def ctaSlotOK (opts : SanitizationOptions) : Option CTA → Bool
  | none => true
  | some cta => cta.href == "" || hrefCanonical opts cta.href

/-- Canonical-href condition for the whole configuration. -/
def cfgHrefsOK (c : SiteConfig) (opts : SanitizationOptions) : Bool :=
  match c.pages.home.hero.cta with
  | none => true
  | some pair => ctaSlotOK opts pair.primary && ctaSlotOK opts pair.secondary

/- ----------------------------------------------------------------- -/
/- Concrete configurations and inputs used in counterexamples and
   witnesses. -/

/-- A benign feature entry. -/
def benignFeature : Feature := ⟨none, "Quality", "We deliver quality work every time."⟩

/-- The configuration of the security-gate example: schema-clean, but the
name carries `API_KEY=secret123`. -/
def cfgSecurityDemo : SiteConfig :=
  ⟨"Test Company with API_KEY=secret123", "A test business site",
   ⟨⟨⟨"Welcome", "We provide quality work for you", none⟩, [benignFeature]⟩,
    none, none, none⟩, none⟩

/-- A configuration whose only anomaly is a double space inside the name. -/
def cfgWhitespaceOnly : SiteConfig :=
  ⟨"A  B", "desc", ⟨⟨⟨"Title", "Sub", none⟩, [⟨none, "F", "fd"⟩]⟩,
    none, none, none⟩, none⟩

/-- A configuration whose name contains two interleaved copies of
`javascript:`; removing the inner occurrence re-creates the pattern. -/
def cfgOverlap : SiteConfig :=
  ⟨"jajavascript:vascript:", "desc", ⟨⟨⟨"Title", "Sub", none⟩,
    [⟨none, "F", "fd"⟩]⟩, none, none, none⟩, none⟩

/-- A 200-character description with a space at index 119, so that the
120-character cut ends on a space that is then trimmed away. -/
def descSplit200 : String :=
  String.mk (List.replicate 119 'x' ++ [' '] ++ List.replicate 80 'x')

/-- Configuration holding `descSplit200` as its only feature description. -/
def cfgSplitDesc : SiteConfig :=
  ⟨"Name", "desc", ⟨⟨⟨"Title", "Sub", none⟩, [⟨none, "F", descSplit200⟩]⟩,
    none, none, none⟩, none⟩

/-- A plain 200-character description (no whitespace at the cut). -/
def descPlain200 : String := String.mk (List.replicate 200 'y')

/-- Configuration holding `descPlain200` as its only feature description. -/
def cfgPlainDesc : SiteConfig :=
  ⟨"Name", "desc", ⟨⟨⟨"Title", "Sub", none⟩, [⟨none, "F", descPlain200⟩]⟩,
    none, none, none⟩, none⟩

/-- A fully clean configuration (already whitespace-normal, no dangerous
content, no CTA). -/
def cfgClean : SiteConfig :=
  ⟨"Acme Widgets", "Simple and honest tools",
   ⟨⟨⟨"Welcome", "Good tools for all", none⟩, [⟨none, "Sturdy", "Built to last"⟩]⟩,
    none, none, none⟩, none⟩

/-- A configuration whose name carries a dangerous protocol. -/
def cfgDangerName : SiteConfig :=
  ⟨"javascript:alert", "desc", ⟨⟨⟨"Title", "Sub", none⟩, [⟨none, "F", "fd"⟩]⟩,
    none, none, none⟩, none⟩

/-- A configuration violating several schema bounds (name 101 characters,
empty features array). -/
def cfgBadBounds : SiteConfig :=
  ⟨String.mk (List.replicate 101 'n'), "d",
   ⟨⟨⟨"t", "s", none⟩, []⟩, none, none, none⟩, none⟩

/-- Stand-in digest function for the webhook theorems: a fixed 64-character
lowercase hex output, the shape of every HMAC-SHA-256 hex digest. -/
def hexDummy : String → String → String :=
  fun _ _ => String.mk (List.replicate 64 'a')

/-- Is the string entirely lowercase hexadecimal? -/
def isLowerHexStr (s : String) : Bool :=
  s.data.all fun c => ('0' ≤ c && c ≤ '9') || ('a' ≤ c && c ≤ 'f')

/-- Uppercase every character. -/
def upperStr (s : String) : String := String.mk (s.data.map Char.toUpper)

/-- The prompt whose quoted business name contains the word `secret`. -/
def promptSecretStudio : String := "build a website for \"My secret Studio\""

/-- The prompt with an unquoted `named <Capitalized phrase>` construct. -/
def promptNamedAcme : String := "Create a website named Acme Company"

/-- A prompt of 1001 characters. -/
def longPrompt : String := String.mk (List.replicate 1001 'a')

/- ================================================================= -/
/- Theorems.                                                          -/
/- ================================================================= -/

set_option maxRecDepth 100000

/-- Claim C1: the security check is a hard gate over the whole
configuration.  For every `SiteConfig`, `validateSecurityConstraints`
serializes it to JSON text and returns `valid = false` with at least one
error identifying the matched pattern whenever that text matches any of
the six case-insensitive sensitive-content patterns, and `valid = true`
with an empty error list otherwise; in particular the configuration whose
name is `"Test Company with API_KEY=secret123"` passes the schema check
but fails the security check. -/
theorem securityGateHard (c : SiteConfig) :
    ((∃ pr ∈ sensitivePatterns, pr.2 (siteConfigJson c).data = true) →
      (validateSecurityConstraints c).valid = false ∧
      (validateSecurityConstraints c).errors ≠ [] ∧
      ∀ pr ∈ sensitivePatterns, pr.2 (siteConfigJson c).data = true →
        ("Potential sensitive data detected: pattern " ++ pr.1) ∈
          (validateSecurityConstraints c).errors) ∧
    ((∀ pr ∈ sensitivePatterns, pr.2 (siteConfigJson c).data = false) →
      (validateSecurityConstraints c).valid = true ∧
      (validateSecurityConstraints c).errors = []) ∧
    (validateSiteConfig cfgSecurityDemo = [] ∧
      (validateSecurityConstraints cfgSecurityDemo).valid = false) := by
  refine ⟨?_, ?_, by decide⟩
  · rintro ⟨pr, hmem, hmatch⟩
    have herr : ("Potential sensitive data detected: pattern " ++ pr.1) ∈
        (validateSecurityConstraints c).errors := by
      simp only [validateSecurityConstraints, List.mem_map]
      exact ⟨pr, List.mem_filter.mpr ⟨hmem, by simp [hmatch]⟩, rfl⟩
    have hne : (validateSecurityConstraints c).errors ≠ [] := by
      intro h
      rw [h] at herr
      exact absurd herr (List.not_mem_nil _)
    refine ⟨?_, hne, ?_⟩
    · have : (validateSecurityConstraints c).valid =
          (validateSecurityConstraints c).errors.isEmpty := rfl
      rw [this, List.isEmpty_eq_false]
      exact hne
    · intro pr2 hmem2 hmatch2
      simp only [validateSecurityConstraints, List.mem_map]
      exact ⟨pr2, List.mem_filter.mpr ⟨hmem2, by simp [hmatch2]⟩, rfl⟩
  · intro hall
    have hfil : sensitivePatterns.filter
        (fun pr => pr.2 (siteConfigJson c).data) = [] := by
      rw [List.filter_eq_nil_iff]
      intro pr hmem
      simp [hall pr hmem]
    have herr : (validateSecurityConstraints c).errors = [] := by
      simp only [validateSecurityConstraints, hfil, List.map_nil]
    exact ⟨by simp only [validateSecurityConstraints, hfil]; rfl, herr⟩

/-- Witness for claim C1 at concrete inputs: the demo configuration fails
the security check with an error naming the `secret` pattern, and the
clean configuration passes it. -/
theorem securityGateHard_witness :
    (validateSecurityConstraints cfgSecurityDemo).valid = false ∧
    ("Potential sensitive data detected: pattern secret") ∈
      (validateSecurityConstraints cfgSecurityDemo).errors ∧
    (validateSecurityConstraints cfgClean).valid = true := by
  have h1 := (securityGateHard cfgSecurityDemo).1
    (by exact ⟨("secret", mSecret), by simp [sensitivePatterns], by decide⟩)
  have h2 := (securityGateHard cfgClean).2.1 (by decide)
  exact ⟨h1.1, h1.2.2 ("secret", mSecret) (by simp [sensitivePatterns]) (by decide), h2.1⟩

/-- `checkStr` succeeds exactly on the bounds. -/
theorem checkStr_eq_nil (path : String) (lo hi : Nat) (s : String) :
    checkStr path lo hi s = [] ↔ lo ≤ s.length ∧ s.length ≤ hi := by
  unfold checkStr
  split <;> split <;> simp <;> omega

/-- `checkMin1` succeeds exactly on non-empty strings. -/
theorem checkMin1_eq_nil (path : String) (s : String) :
    checkMin1 path s = [] ↔ 1 ≤ s.length := by
  unfold checkMin1
  split <;> simp <;> omega

/-- `checkMax` succeeds exactly below the maximum. -/
theorem checkMax_eq_nil (path : String) (hi : Nat) (s : String) :
    checkMax path hi s = [] ↔ s.length ≤ hi := by
  unfold checkMax
  split <;> simp <;> omega

/-- `checkIndexed` succeeds exactly when the per-element check succeeds on
every element, for any starting index. -/
theorem checkIndexed_eq_nil {α : Type} {chk : String → α → List FieldError}
    {P : α → Prop} (h : ∀ path x, chk path x = [] ↔ P x) (path : String) :
    ∀ (i : Nat) (l : List α), checkIndexed chk path i l = [] ↔ ∀ x ∈ l, P x := by
  intro i l
  induction l generalizing i with
  | nil => simp [checkIndexed]
  | cons x xs ih =>
    simp [checkIndexed, List.append_eq_nil, h, ih]

/-- Membership in `checkIndexed` from membership in the check of the
element at offset `j`. -/
theorem mem_checkIndexed {α : Type} {chk : String → α → List FieldError}
    (path : String) {e : FieldError} :
    ∀ (i j : Nat) {l : List α} {x : α}, l.get? j = some x →
      e ∈ chk (path ++ "." ++ toString (i + j)) x →
      e ∈ checkIndexed chk path i l := by
  intro i j l
  induction l generalizing i j with
  | nil => intro x h; simp at h
  | cons y ys ih =>
    intro x hget hmem
    cases j with
    | zero =>
      simp at hget
      subst hget
      exact List.mem_append_left _ hmem
    | succ j0 =>
      simp only [List.get?_cons_succ] at hget
      refine List.mem_append_right _ (ih (i + 1) j0 hget ?_)
      have : i + 1 + j0 = i + (j0 + 1) := by omega
      rw [this]
      exact hmem

/-- `checkCTA` characterizes `CTAOK`. -/
theorem checkCTA_eq_nil (path : String) (c : CTA) :
    checkCTA path c = [] ↔ CTAOK c := by
  simp [checkCTA, CTAOK, List.append_eq_nil, checkStr_eq_nil, checkMin1_eq_nil]
  tauto

/-- `checkHero` characterizes `HeroOK`. -/
theorem checkHero_eq_nil (path : String) (h : Hero) :
    checkHero path h = [] ↔ HeroOK h := by
  obtain ⟨t, s, cta⟩ := h
  cases cta with
  | none =>
    simp [checkHero, HeroOK, List.append_eq_nil, checkStr_eq_nil]
    tauto
  | some p =>
    obtain ⟨pri, sec⟩ := p
    cases pri <;> cases sec <;>
      simp [checkHero, HeroOK, List.append_eq_nil, checkStr_eq_nil,
        checkCTA_eq_nil] <;> tauto

/-- `checkFeature` characterizes `FeatureOK`. -/
theorem checkFeature_eq_nil (path : String) (f : Feature) :
    checkFeature path f = [] ↔ FeatureOK f := by
  obtain ⟨ic, t, d⟩ := f
  cases ic <;>
    simp [checkFeature, FeatureOK, List.append_eq_nil, checkStr_eq_nil,
      checkMax_eq_nil] <;> tauto

/-- `checkTeamMember` characterizes `TeamMemberOK`. -/
theorem checkTeamMember_eq_nil (path : String) (t : TeamMember) :
    checkTeamMember path t = [] ↔ TeamMemberOK t := by
  obtain ⟨n, r, b⟩ := t
  cases b <;>
    simp [checkTeamMember, TeamMemberOK, List.append_eq_nil, checkMin1_eq_nil,
      checkMax_eq_nil] <;> tauto


/-- A guard emitting one error: empty exactly when the guard holds. -/
theorem bool_guard_eq_nil {b : Bool} {e : FieldError} :
    (if b then ([] : List FieldError) else [e]) = [] ↔ b = true := by
  cases b <;> simp

/-- An error guard: empty exactly when the condition fails. -/
theorem cond_err_eq_nil {c : Prop} [Decidable c] {e : FieldError} :
    (if c then [e] else ([] : List FieldError)) = [] ↔ ¬c := by
  split <;> simp_all

/-- `checkIndexed` over the service string features. -/
theorem checkIndexedMax_eq_nil {path : String} {i : Nat} {l : List String} :
    checkIndexed (fun p str => checkMax p 100 str) path i l = [] ↔
      ∀ x ∈ l, x.length ≤ 100 :=
  checkIndexed_eq_nil (fun p x => checkMax_eq_nil p 100 x) path i l

/-- `checkIndexed` over features. -/
theorem checkIndexedFeature_eq_nil {path : String} {i : Nat} {l : List Feature} :
    checkIndexed checkFeature path i l = [] ↔ ∀ f ∈ l, FeatureOK f :=
  checkIndexed_eq_nil (fun p x => checkFeature_eq_nil p x) path i l

/-- `checkIndexed` over team members. -/
theorem checkIndexedTeam_eq_nil {path : String} {i : Nat} {l : List TeamMember} :
    checkIndexed checkTeamMember path i l = [] ↔ ∀ t ∈ l, TeamMemberOK t :=
  checkIndexed_eq_nil (fun p x => checkTeamMember_eq_nil p x) path i l

/-- `checkService` characterizes `ServiceOK`. -/
theorem checkService_eq_nil (path : String) (s : Service) :
    checkService path s = [] ↔ ServiceOK s := by
  obtain ⟨t, d, fs⟩ := s
  cases fs <;>
    simp [checkService, ServiceOK, List.append_eq_nil, checkStr_eq_nil,
      checkIndexedMax_eq_nil] <;> tauto

/-- `checkIndexed` over services. -/
theorem checkIndexedService_eq_nil {path : String} {i : Nat} {l : List Service} :
    checkIndexed checkService path i l = [] ↔ ∀ s ∈ l, ServiceOK s :=
  checkIndexed_eq_nil (fun p x => checkService_eq_nil p x) path i l

/-- `checkImage` characterizes `ImageOK`. -/
theorem checkImage_eq_nil (path : String) (im : SiteImage) :
    checkImage path im = [] ↔ ImageOK im := by
  obtain ⟨u, a⟩ := im
  by_cases hu : jsURLOk u <;>
    simp [checkImage, ImageOK, List.append_eq_nil, checkMin1_eq_nil, hu]

/-- `checkIndexed` over images. -/
theorem checkIndexedImage_eq_nil {path : String} {i : Nat} {l : List SiteImage} :
    checkIndexed checkImage path i l = [] ↔ ∀ im ∈ l, ImageOK im :=
  checkIndexed_eq_nil (fun p x => checkImage_eq_nil p x) path i l

/-- `checkHome` characterizes `HomeOK`. -/
theorem checkHome_eq_nil {path : String} {hp : HomePage} :
    checkHome path hp = [] ↔ HomeOK hp := by
  obtain ⟨h, fs⟩ := hp
  simp [checkHome, HomeOK, List.append_eq_nil, checkHero_eq_nil,
    checkIndexedFeature_eq_nil, cond_err_eq_nil, Nat.not_lt,
    Nat.one_le_iff_ne_zero]

/-- `checkAbout` characterizes `AboutOK`. -/
theorem checkAbout_eq_nil {path : String} {a : AboutPage} :
    checkAbout path a = [] ↔ AboutOK a := by
  obtain ⟨h, b, ts⟩ := a
  cases h <;> cases b <;> cases ts <;>
    simp [checkAbout, AboutOK, List.append_eq_nil, checkHero_eq_nil,
      checkStr_eq_nil, checkIndexedTeam_eq_nil] <;> tauto

/-- `checkContact` characterizes `ContactOK`. -/
theorem checkContact_eq_nil {path : String} {ct : ContactPage} :
    checkContact path ct = [] ↔ ContactOK ct := by
  obtain ⟨h, e, ad, ph⟩ := ct
  cases h <;> cases e <;> cases ad <;> cases ph <;>
    simp [checkContact, ContactOK, List.append_eq_nil, checkHero_eq_nil,
      checkStr_eq_nil, checkMax_eq_nil, bool_guard_eq_nil] <;> tauto

/-- `checkServices` characterizes `ServicesOK`. -/
theorem checkServices_eq_nil {path : String} {sv : ServicesPage} :
    checkServices path sv = [] ↔ ServicesOK sv := by
  obtain ⟨h, ss⟩ := sv
  cases h <;> cases ss <;>
    simp [checkServices, ServicesOK, List.append_eq_nil, checkHero_eq_nil,
      checkIndexedService_eq_nil] <;> tauto

/-- The full schema validator characterizes `SchemaOK`. -/
theorem validateSiteConfig_eq_nil {c : SiteConfig} :
    validateSiteConfig c = [] ↔ SchemaOK c := by
  obtain ⟨n, d, ⟨hp, ab, ct, sv⟩, imgs⟩ := c
  simp only [validateSiteConfig, SchemaOK, List.append_eq_nil, checkStr_eq_nil,
    checkHome_eq_nil]
  cases ab <;> cases ct <;> cases sv <;> cases imgs <;>
    simp [checkAbout_eq_nil, checkContact_eq_nil, checkServices_eq_nil,
      checkIndexedImage_eq_nil] <;> tauto

/-- Membership of the too-long error in a bounded string check. -/
theorem checkStr_mem_long (path : String) (lo hi : Nat) (s : String)
    (h : hi < s.length) :
    (⟨path, "too long"⟩ : FieldError) ∈ checkStr path lo hi s := by
  unfold checkStr
  refine List.mem_append_right _ ?_
  rw [if_pos h]
  exact List.mem_singleton.mpr rfl

/-- Claim C2: the schema check accepts a configuration exactly when every
field is within its documented bound (features 1–6, name 1–100,
description 1–200, hero title 1–60, hero subtitle 1–300, feature title
1–50, feature description 1–120, icon at most 10, image URLs well-formed,
and the bounds of the optional pages), and a violated bound is reported
with a field-path error for that field. -/
theorem schemaCheckIffBounds (c : SiteConfig) :
    (validateSiteConfig c = [] ↔ SchemaOK c) ∧
    (c.pages.home.features.length < 1 ∨ 6 < c.pages.home.features.length →
      ∃ e ∈ validateSiteConfig c, e.path = "pages.home.features") ∧
    (100 < c.name.length → ∃ e ∈ validateSiteConfig c, e.path = "name") ∧
    (200 < c.description.length →
      ∃ e ∈ validateSiteConfig c, e.path = "description") ∧
    (60 < c.pages.home.hero.title.length →
      ∃ e ∈ validateSiteConfig c, e.path = "pages.home.hero.title") ∧
    (∀ i f, c.pages.home.features.get? i = some f →
      120 < f.description.length →
      ∃ e ∈ validateSiteConfig c,
        e.path = "pages.home.features." ++ toString i ++ ".description") := by
  refine ⟨validateSiteConfig_eq_nil, ?_, ?_, ?_, ?_, ?_⟩
  · rintro (h | h)
    · refine ⟨⟨"pages.home" ++ ".features", "too few"⟩, ?_, by decide⟩
      have hm : (⟨"pages.home" ++ ".features", "too few"⟩ : FieldError) ∈
          (if c.pages.home.features.length < 1 then
            [(⟨"pages.home" ++ ".features", "too few"⟩ : FieldError)] else []) := by
        rw [if_pos h]
        exact List.mem_singleton.mpr rfl
      simp only [validateSiteConfig, checkHome, List.mem_append]
      tauto
    · refine ⟨⟨"pages.home" ++ ".features", "too many"⟩, ?_, by decide⟩
      have hm : (⟨"pages.home" ++ ".features", "too many"⟩ : FieldError) ∈
          (if 6 < c.pages.home.features.length then
            [(⟨"pages.home" ++ ".features", "too many"⟩ : FieldError)] else []) := by
        rw [if_pos h]
        exact List.mem_singleton.mpr rfl
      simp only [validateSiteConfig, checkHome, List.mem_append]
      tauto
  · intro h
    refine ⟨⟨"name", "too long"⟩, ?_, rfl⟩
    have hm := checkStr_mem_long "name" 1 100 c.name h
    simp only [validateSiteConfig, List.mem_append]
    tauto
  · intro h
    refine ⟨⟨"description", "too long"⟩, ?_, rfl⟩
    have hm := checkStr_mem_long "description" 1 200 c.description h
    simp only [validateSiteConfig, List.mem_append]
    tauto
  · intro h
    refine ⟨⟨"pages.home" ++ ".hero" ++ ".title", "too long"⟩, ?_, by decide⟩
    have hm := checkStr_mem_long ("pages.home" ++ ".hero" ++ ".title") 1 60
      c.pages.home.hero.title h
    simp only [validateSiteConfig, checkHome, checkHero, List.mem_append]
    tauto
  · intro i f hget h
    have hpath : ("pages.home" ++ ".features") ++ "." ++ toString (0 + i) ++ ".description"
        = "pages.home.features." ++ toString i ++ ".description" := by
      rw [Nat.zero_add]
      rfl
    refine ⟨⟨("pages.home" ++ ".features") ++ "." ++ toString (0 + i) ++ ".description",
      "too long"⟩, ?_, hpath⟩
    have hin : (⟨("pages.home" ++ ".features") ++ "." ++ toString (0 + i) ++ ".description",
        "too long"⟩ : FieldError) ∈
        checkFeature (("pages.home" ++ ".features") ++ "." ++ toString (0 + i)) f := by
      unfold checkFeature
      have hm := checkStr_mem_long
        (("pages.home" ++ ".features") ++ "." ++ toString (0 + i) ++ ".description")
        1 120 f.description h
      simp only [List.mem_append]
      tauto
    have hm := mem_checkIndexed ("pages.home" ++ ".features") 0 i hget hin
    simp only [validateSiteConfig, checkHome, List.mem_append]
    tauto

/-- Witness for claim C2 at concrete inputs: the clean configuration
passes the schema check and satisfies all bounds; the bad configuration
(101-character name, empty features array) is rejected with errors at the
`name` and `pages.home.features` paths. -/
theorem schemaCheckIffBounds_witness :
    (validateSiteConfig cfgClean = [] ∧ SchemaOK cfgClean) ∧
    (∃ e ∈ validateSiteConfig cfgBadBounds, e.path = "name") ∧
    (∃ e ∈ validateSiteConfig cfgBadBounds, e.path = "pages.home.features") := by
  refine ⟨⟨by decide, (schemaCheckIffBounds cfgClean).1.mp (by decide)⟩,
    (schemaCheckIffBounds cfgBadBounds).2.2.1 (by decide),
    (schemaCheckIffBounds cfgBadBounds).2.1 (Or.inl (by decide))⟩

/-- Characterization of `List.findSome?`: it returns `some b` exactly when
some position yields `b` and every earlier position yields nothing. -/
theorem findSome_eq_some_iff {α β : Type} (f : α → Option β) :
    ∀ (l : List α) (b : β), l.findSome? f = some b ↔
      ∃ i, ∃ h : i < l.length, f (l.get ⟨i, h⟩) = some b ∧
        ∀ j, ∀ hj : j < i, f (l.get ⟨j, Nat.lt_trans hj h⟩) = none := by
  intro l
  induction l with
  | nil => intro b; simp [List.findSome?]
  | cons a l ih =>
    intro b
    rw [List.findSome?_cons]
    cases hfa : f a with
    | some c =>
      simp only []
      constructor
      · intro hcb
        exact ⟨0, Nat.succ_pos _, by simpa [hfa] using hcb, fun j hj => absurd hj (Nat.not_lt_zero j)⟩
      · rintro ⟨i, h, hget, hprev⟩
        cases i with
        | zero => simpa [hfa] using hget
        | succ k =>
          have := hprev 0 (Nat.succ_pos k)
          simp [hfa] at this
    | none =>
      simp only []
      rw [ih b]
      constructor
      · rintro ⟨i, h, hget, hprev⟩
        refine ⟨i + 1, Nat.succ_lt_succ h, by simpa using hget, ?_⟩
        intro j hj
        cases j with
        | zero => simpa using hfa
        | succ m => simpa using hprev m (Nat.lt_of_succ_lt_succ hj)
      · rintro ⟨i, h, hget, hprev⟩
        cases i with
        | zero => simp [hfa] at hget
        | succ k =>
          refine ⟨k, Nat.lt_of_succ_lt_succ h, by simpa using hget, ?_⟩
          intro j hj
          have := hprev (j + 1) (Nat.succ_lt_succ hj)
          simpa using this

/-- Claim C3 counterexample: on the prompt
`"Create a website named Acme Company"` the claimed behaviour (an unquoted
`named <Capitalized phrase>` construct is matched, normalised to `"Acme"`)
differs from the source, whose pattern list has no unquoted
`called`/`named` pattern and therefore extracts nothing. -/
theorem extractSiteName_counterexample :
    extractSiteName promptNamedAcme = none ∧
    extractSiteNameClaimed promptNamedAcme = some "Acme" := by
  constructor
  · decide
  · decide

/-- Claim C3 (amended): `extractSiteName` tries the nine source patterns in
source order (quoted `for`/`called`/`named` forms, bare double- and
single-quoted spans, `for <phrase> <mandatory business suffix>`,
`create`/`build` … `site`/`website` … `for <phrase>`, `<phrase>` followed
by a type word); the first pattern whose raw capture has length strictly
between 2 and 50 and whose normalisation (trim, collapse whitespace,
strip a leading article, strip a trailing `company`/`corp`/`inc`/`llc`/`co`
suffix) still has length above 2 wins, and the extractor returns that
normalised name; otherwise it returns nothing, and it never throws. -/
theorem extractSiteNameFirstPattern (p : String) :
    (∀ n : String, extractSiteName p = some n ↔
      ∃ i, ∃ h : i < sitePatterns.length,
        tryPattern p.data (sitePatterns.get ⟨i, h⟩) = some n.data ∧
        ∀ j, ∀ hj : j < i,
          tryPattern p.data (sitePatterns.get ⟨j, Nat.lt_trans hj h⟩) = none) ∧
    (extractSiteName p = none ↔
      ∀ pat ∈ sitePatterns, tryPattern p.data pat = none) ∧
    (∀ n : String, extractSiteName p = some n → 2 < n.length) ∧
    (∀ pat nm, tryPattern p.data pat = some nm →
      ∃ raw, pat p.data = some raw ∧ 2 < raw.length ∧ raw.length < 50 ∧
        nm = normalizeCap raw ∧ 2 < nm.length) := by
  have hshape : ∀ pat nm, tryPattern p.data pat = some nm →
      ∃ raw, pat p.data = some raw ∧ 2 < raw.length ∧ raw.length < 50 ∧
        nm = normalizeCap raw ∧ 2 < nm.length := by
    intro pat nm h
    unfold tryPattern at h
    cases hp : pat p.data with
    | none => rw [hp] at h; exact absurd h (by simp)
    | some raw =>
      rw [hp] at h
      have h2 : (if 2 < raw.length && raw.length < 50 then
          (if 2 < (normalizeCap raw).length then some (normalizeCap raw) else none)
          else none) = some nm := h
      by_cases hb : (decide (2 < raw.length) && decide (raw.length < 50)) = true
      · rw [if_pos hb] at h2
        have hb2 : 2 < raw.length ∧ raw.length < 50 := by simpa using hb
        by_cases hn : 2 < (normalizeCap raw).length
        · rw [if_pos hn] at h2
          have heq : normalizeCap raw = nm := by simpa using h2
          exact ⟨raw, rfl, hb2.1, hb2.2, heq.symm, heq ▸ hn⟩
        · rw [if_neg hn] at h2
          exact absurd h2 (by simp)
      · rw [if_neg hb] at h2
        exact absurd h2 (by simp)
  have hmap : ∀ n : String, extractSiteName p = some n ↔
      sitePatterns.findSome? (tryPattern p.data) = some n.data := by
    intro n
    unfold extractSiteName
    cases ho : sitePatterns.findSome? (tryPattern p.data) with
    | none => simp
    | some l =>
      simp only [Option.map_some']
      constructor
      · intro h
        have hl : String.mk l = n := by
          exact Option.some.inj h
        rw [← hl]
      · intro h
        have hl : l = n.data := Option.some.inj h
        rw [hl]
  refine ⟨?_, ?_, ?_, hshape⟩
  · intro n
    rw [hmap n]
    exact findSome_eq_some_iff (tryPattern p.data) sitePatterns n.data
  · constructor
    · intro h
      unfold extractSiteName at h
      have ho : sitePatterns.findSome? (tryPattern p.data) = none := by
        cases ho2 : sitePatterns.findSome? (tryPattern p.data) with
        | none => rfl
        | some l => rw [ho2] at h; simp at h
      exact List.findSome?_eq_none_iff.mp ho
    · intro hall
      unfold extractSiteName
      rw [List.findSome?_eq_none_iff.mpr hall]
      rfl
  · intro n h
    obtain ⟨i, hi, hget, _⟩ :=
      (findSome_eq_some_iff (tryPattern p.data) sitePatterns n.data).mp ((hmap n).mp h)
    obtain ⟨raw, _, _, _, _, hlen⟩ := hshape _ _ hget
    simpa using hlen

/-- Witness for the amended claim C3 at a concrete prompt: the quoted-name
pattern wins on `promptSecretStudio` and the returned name is longer than
2 characters. -/
theorem extractSiteNameFirstPattern_witness :
    2 < ("My secret Studio" : String).length :=
  (extractSiteNameFirstPattern promptSecretStudio).2.2.1 "My secret Studio" (by decide)

/-- Split a true conjunction of Booleans. -/
theorem andE {a b : Bool} (h : (a && b) = true) : a = true ∧ b = true := by
  simp at h
  exact h

/-- Join to a true conjunction of Booleans. -/
theorem andI {a b : Bool} (h1 : a = true) (h2 : b = true) : (a && b) = true := by
  simp [h1, h2]

/-- Mapping a whitespace character to a space keeps the whitespace status. -/
theorem isWS_norm (c : Char) : isWS (if isWS c then ' ' else c) = isWS c := by
  by_cases h : isWS c = true
  · rw [if_pos h, h]
    decide
  · rw [if_neg h]

/-- Unfolding equation of `wsCollapse` on a singleton. -/
theorem wsCollapse_one (c : Char) :
    wsCollapse [c] = [if isWS c then ' ' else c] := rfl

/-- Unfolding equation of `wsCollapse` on two or more elements. -/
theorem wsCollapse_cons2 (c d : Char) (r : List Char) :
    wsCollapse (c :: d :: r) =
      if isWS c && isWS d then wsCollapse (d :: r)
      else (if isWS c then ' ' else c) :: wsCollapse (d :: r) := rfl

/-- Unfolding equation of `trimEnd` on a cons. -/
theorem trimEnd_cons (c : Char) (cs : List Char) :
    trimEnd (c :: cs) =
      if (trimEnd cs).isEmpty && isWS c then [] else c :: trimEnd cs := rfl

/-- `noTwoWS` passes to the tail. -/
theorem noTwoWS_tail {c : Char} {l : List Char} (h : noTwoWS (c :: l) = true) :
    noTwoWS l = true := by
  cases l with
  | nil => rfl
  | cons d r =>
    unfold noTwoWS at h
    exact (andE h).2

/-- `wsIsSpace` passes to the tail. -/
theorem wsIsSpace_tail {c : Char} {l : List Char} (h : wsIsSpace (c :: l) = true) :
    wsIsSpace l = true := by
  unfold wsIsSpace at h ⊢
  rw [List.all_cons] at h
  exact (andE h).2

/-- `noTwoWS` survives dropping a whitespace prefix. -/
theorem noTwoWS_dropWhile {l : List Char} (h : noTwoWS l = true) :
    noTwoWS (l.dropWhile isWS) = true := by
  induction l with
  | nil => simpa using h
  | cons c r ih =>
    rw [List.dropWhile_cons]
    split
    · exact ih (noTwoWS_tail h)
    · exact h

/-- `wsIsSpace` survives dropping a whitespace prefix. -/
theorem wsIsSpace_dropWhile {l : List Char} (h : wsIsSpace l = true) :
    wsIsSpace (l.dropWhile isWS) = true := by
  induction l with
  | nil => simpa using h
  | cons c r ih =>
    rw [List.dropWhile_cons]
    split
    · exact ih (wsIsSpace_tail h)
    · exact h

/-- The head after dropping whitespace is never whitespace. -/
theorem headNotWS_dropWhile (l : List Char) :
    headNotWS (l.dropWhile isWS) = true := by
  induction l with
  | nil => rfl
  | cons c r ih =>
    rw [List.dropWhile_cons]
    split
    · exact ih
    · next hc => simp [headNotWS, hc]

/-- `trimEnd` returns a prefix of its input. -/
theorem trimEnd_prefix (l : List Char) : ∃ t, l = trimEnd l ++ t := by
  induction l with
  | nil => exact ⟨[], rfl⟩
  | cons c cs ih =>
    rw [trimEnd_cons]
    split
    · exact ⟨c :: cs, rfl⟩
    · obtain ⟨t, ht⟩ := ih
      exact ⟨t, by simpa using congrArg (c :: ·) ht⟩

/-- `trimEnd` keeps the head when the result is nonempty. -/
theorem head?_trimEnd (l : List Char) :
    trimEnd l = [] ∨ (trimEnd l).head? = l.head? := by
  cases l with
  | nil => exact Or.inl rfl
  | cons c cs =>
    rw [trimEnd_cons]
    split
    · exact Or.inl rfl
    · exact Or.inr rfl

/-- `noTwoWS` restricts to a left factor. -/
theorem noTwoWS_append_left {l1 l2 : List Char}
    (h : noTwoWS (l1 ++ l2) = true) : noTwoWS l1 = true := by
  induction l1 with
  | nil => rfl
  | cons c r ih =>
    cases r with
    | nil => rfl
    | cons d r2 =>
      unfold noTwoWS at h ⊢
      exact andI (andE h).1 (ih (andE h).2)

/-- `wsIsSpace` restricts to a left factor. -/
theorem wsIsSpace_append_left {l1 l2 : List Char}
    (h : wsIsSpace (l1 ++ l2) = true) : wsIsSpace l1 = true := by
  unfold wsIsSpace at h ⊢
  rw [List.all_append] at h
  exact (andE h).1

/-- `noTwoWS` survives `trimEnd`. -/
theorem noTwoWS_trimEnd {l : List Char} (h : noTwoWS l = true) :
    noTwoWS (trimEnd l) = true := by
  obtain ⟨t, ht⟩ := trimEnd_prefix l
  exact noTwoWS_append_left (ht ▸ h)

/-- `wsIsSpace` survives `trimEnd`. -/
theorem wsIsSpace_trimEnd {l : List Char} (h : wsIsSpace l = true) :
    wsIsSpace (trimEnd l) = true := by
  obtain ⟨t, ht⟩ := trimEnd_prefix l
  exact wsIsSpace_append_left (ht ▸ h)

/-- `headNotWS` survives `trimEnd`. -/
theorem headNotWS_trimEnd {l : List Char} (h : headNotWS l = true) :
    headNotWS (trimEnd l) = true := by
  rcases head?_trimEnd l with he | he
  · simp [he, headNotWS]
  · cases hl : trimEnd l with
    | nil => rfl
    | cons c r =>
      rw [hl] at he
      cases l with
      | nil => simp at he
      | cons d r2 =>
        simp at he
        unfold headNotWS at h ⊢
        rwa [he]

/-- `trimEnd` never ends in whitespace. -/
theorem lastNotWS_trimEnd (l : List Char) : lastNotWS (trimEnd l) = true := by
  induction l with
  | nil => rfl
  | cons c cs ih =>
    rw [trimEnd_cons]
    split
    · rfl
    · next hcond =>
      cases htc : trimEnd cs with
      | nil =>
        have hcn : isWS c = false := by
          rw [htc] at hcond
          simpa using hcond
        simp [lastNotWS, hcn]
      | cons d r =>
        rw [htc] at ih
        simpa [lastNotWS, List.getLast?_cons_cons] using ih

/-- `trimEnd` is the identity when the list does not end in whitespace. -/
theorem trimEnd_eq_self {l : List Char} (h : lastNotWS l = true) :
    trimEnd l = l := by
  induction l with
  | nil => rfl
  | cons c cs ih =>
    cases cs with
    | nil =>
      have hc : isWS c = false := by simpa [lastNotWS] using h
      simp [trimEnd_cons, hc, trimEnd]
    | cons d r =>
      have hcs : trimEnd (d :: r) = d :: r := by
        refine ih ?_
        simpa [lastNotWS, List.getLast?_cons_cons] using h
      rw [trimEnd_cons, hcs]
      simp

/-- Dropping whitespace is the identity when the head is not whitespace. -/
theorem dropWhile_eq_self_of_head {l : List Char} (h : headNotWS l = true) :
    l.dropWhile isWS = l := by
  cases l with
  | nil => rfl
  | cons c r =>
    have hc : isWS c = false := by simpa [headNotWS] using h
    simp [List.dropWhile_cons, hc]

/-- `trimWS` is the identity on lists with non-whitespace ends. -/
theorem trimWS_eq_self {l : List Char} (h1 : headNotWS l = true)
    (h2 : lastNotWS l = true) : trimWS l = l := by
  unfold trimWS
  rw [dropWhile_eq_self_of_head h1, trimEnd_eq_self h2]

/-- The head of a collapsed nonempty list exists and has the whitespace
status of the original head. -/
theorem wsCollapse_head (c : Char) (r : List Char) :
    ∃ e t, wsCollapse (c :: r) = e :: t ∧ isWS e = isWS c := by
  induction r generalizing c with
  | nil => exact ⟨if isWS c then ' ' else c, [], wsCollapse_one c, isWS_norm c⟩
  | cons d r2 ih =>
    by_cases h : (isWS c && isWS d) = true
    · obtain ⟨e, t, het, hws⟩ := ih d
      refine ⟨e, t, ?_, ?_⟩
      · rw [wsCollapse_cons2, if_pos h]
        exact het
      · rw [hws, (andE h).2, (andE h).1]
    · exact ⟨if isWS c then ' ' else c, wsCollapse (d :: r2),
        by rw [wsCollapse_cons2, if_neg h], isWS_norm c⟩

/-- A collapsed list has no adjacent whitespace and only plain spaces. -/
theorem wsCollapse_props (l : List Char) :
    noTwoWS (wsCollapse l) = true ∧ wsIsSpace (wsCollapse l) = true := by
  induction l with
  | nil => exact ⟨rfl, rfl⟩
  | cons c cs ih =>
    cases cs with
    | nil =>
      rw [wsCollapse_one]
      constructor
      · rfl
      · unfold wsIsSpace
        rw [List.all_cons]
        refine andI ?_ rfl
        by_cases hc : isWS c = true
        · rw [if_pos hc]
          decide
        · rw [if_neg hc]
          simp [hc]
    | cons d r =>
      by_cases h : (isWS c && isWS d) = true
      · rw [wsCollapse_cons2, if_pos h]
        exact ih
      · rw [wsCollapse_cons2, if_neg h]
        obtain ⟨e, t, het, hws⟩ := wsCollapse_head d r
        constructor
        · rw [het]
          unfold noTwoWS
          refine andI ?_ (by rw [← het]; exact ih.1)
          rw [isWS_norm c, hws]
          have hf : (isWS c && isWS d) = false := by
            cases hcd : (isWS c && isWS d)
            · rfl
            · exact absurd hcd h
          simp [hf]
        · unfold wsIsSpace
          rw [List.all_cons]
          refine andI ?_ ih.2
          by_cases hc : isWS c = true
          · rw [if_pos hc]
            decide
          · rw [if_neg hc]
            simp [hc]

/-- A collapsed list is unchanged when already normal. -/
theorem wsCollapse_eq_self {l : List Char} (h1 : noTwoWS l = true)
    (h2 : wsIsSpace l = true) : wsCollapse l = l := by
  induction l with
  | nil => rfl
  | cons c cs ih =>
    have hcsp : isWS c = true → c = ' ' := by
      intro hc
      unfold wsIsSpace at h2
      rw [List.all_cons] at h2
      have h0 := (andE h2).1
      rw [hc] at h0
      simpa using h0
    cases cs with
    | nil =>
      rw [wsCollapse_one]
      by_cases hc : isWS c = true
      · rw [if_pos hc, hcsp hc]
      · rw [if_neg hc]
    | cons d r =>
      have hpair : (isWS c && isWS d) = false := by
        unfold noTwoWS at h1
        have hnot := (andE h1).1
        cases hcd : (isWS c && isWS d)
        · rfl
        · rw [hcd] at hnot
          exact absurd hnot (by decide)
      rw [wsCollapse_cons2, if_neg (by simp [hpair]),
        ih (noTwoWS_tail h1) (wsIsSpace_tail h2)]
      by_cases hc : isWS c = true
      · rw [if_pos hc, hcsp hc]
      · rw [if_neg hc]

/-- Trimming a list with no adjacent whitespace and only plain spaces gives
a fully normalised list. -/
theorem wsNorm_trimWS {l : List Char} (h1 : noTwoWS l = true)
    (h2 : wsIsSpace l = true) : wsNorm (trimWS l) = true := by
  unfold wsNorm trimWS
  refine andI (andI (andI ?_ ?_) ?_) ?_
  · exact noTwoWS_trimEnd (noTwoWS_dropWhile h1)
  · exact wsIsSpace_trimEnd (wsIsSpace_dropWhile h2)
  · exact headNotWS_trimEnd (headNotWS_dropWhile l)
  · exact lastNotWS_trimEnd _

/-- `collapseTrim` always yields a fully normalised list. -/
theorem wsNorm_collapseTrim (l : List Char) :
    wsNorm (collapseTrim l) = true := by
  unfold collapseTrim
  exact wsNorm_trimWS (wsCollapse_props l).1 (wsCollapse_props l).2

/-- `collapseTrim` is the identity on fully normalised lists. -/
theorem collapseTrim_eq_self {l : List Char} (h : wsNorm l = true) :
    collapseTrim l = l := by
  unfold wsNorm at h
  have h4 := (andE h).2
  have h3 := (andE (andE h).1).2
  have h2 := (andE (andE (andE h).1).1).2
  have h1 := (andE (andE (andE h).1).1).1
  unfold collapseTrim
  rw [wsCollapse_eq_self h1 h2]
  exact trimWS_eq_self h3 h4

/-- A take of a normalised list, trimmed, is again normalised. -/
theorem wsNorm_trimWS_take {l : List Char} (h : wsNorm l = true) (k : Nat) :
    wsNorm (trimWS (l.take k)) = true := by
  have h2 := (andE (andE (andE h).1).1).2
  have h1 := (andE (andE (andE h).1).1).1
  have h1t : noTwoWS (l.take k) = true := by
    have h1a : noTwoWS (l.take k ++ l.drop k) = true := by
      rw [List.take_append_drop]
      exact h1
    exact noTwoWS_append_left h1a
  have h2t : wsIsSpace (l.take k) = true := by
    have h2a : wsIsSpace (l.take k ++ l.drop k) = true := by
      rw [List.take_append_drop]
      exact h2
    exact wsIsSpace_append_left h2a
  exact wsNorm_trimWS h1t h2t

/-- Warnings survive the rest of the pattern fold. -/
theorem foldl_cleanStep_warns_mono (fieldName : String) :
    ∀ (l : List (List Char → Option Nat)) (st : TextScan) (w : String),
      w ∈ st.warns → w ∈ (l.foldl (cleanStep fieldName) st).warns := by
  intro l
  induction l with
  | nil => intro st w h; exact h
  | cons pm l2 ih =>
    intro st w h
    rw [List.foldl_cons]
    refine ih _ w ?_
    unfold cleanStep
    cases hfm : firstMatch pm st.cur with
    | none => exact h
    | some pr =>
      obtain ⟨i, len⟩ := pr
      exact List.mem_append_left _ h

/-- The hit flag survives the rest of the pattern fold. -/
theorem foldl_cleanStep_hit_mono (fieldName : String) :
    ∀ (l : List (List Char → Option Nat)) (st : TextScan),
      st.hit = true → (l.foldl (cleanStep fieldName) st).hit = true := by
  intro l
  induction l with
  | nil => intro st h; exact h
  | cons pm l2 ih =>
    intro st h
    rw [List.foldl_cons]
    refine ih _ ?_
    unfold cleanStep
    cases hfm : firstMatch pm st.cur with
    | none => exact h
    | some pr =>
      obtain ⟨i, len⟩ := pr
      rfl

/-- If some pattern matches the running text, the fold records a removal
warning for this field and sets the hit flag. -/
theorem foldl_cleanStep_fires (fieldName : String) :
    ∀ (l : List (List Char → Option Nat)) (st : TextScan),
      (∃ pm ∈ l, firstMatch pm st.cur ≠ none) →
      (∃ s, ("Removed dangerous content from " ++ fieldName ++ ": " ++ s ++ "...") ∈
          (l.foldl (cleanStep fieldName) st).warns) ∧
        (l.foldl (cleanStep fieldName) st).hit = true := by
  intro l
  induction l with
  | nil =>
    rintro st ⟨pm, hmem, _⟩
    simp at hmem
  | cons pm l2 ih =>
    rintro st ⟨pm2, hmem, hne⟩
    rw [List.foldl_cons]
    cases hfm : firstMatch pm st.cur with
    | some pr =>
      obtain ⟨i, len⟩ := pr
      have hstep : cleanStep fieldName st pm =
          ⟨removeAll pm st.cur,
           st.warns ++ ["Removed dangerous content from " ++ fieldName ++ ": " ++
             String.mk (((st.cur.drop i).take len).take 50) ++ "..."],
           true⟩ := by
        unfold cleanStep
        rw [hfm]
      rw [hstep]
      constructor
      · refine ⟨String.mk (((st.cur.drop i).take len).take 50), ?_⟩
        refine foldl_cleanStep_warns_mono fieldName l2 _ _ ?_
        exact List.mem_append_right _ (List.mem_singleton.mpr rfl)
      · exact foldl_cleanStep_hit_mono fieldName l2 _ rfl
    | none =>
      have hstep : cleanStep fieldName st pm = st := by
        unfold cleanStep
        rw [hfm]
      rw [hstep]
      refine ih st ⟨pm2, ?_, hne⟩
      rcases List.mem_cons.mp hmem with heq | hmem2
      · subst heq
        exact absurd hfm hne
      · exact hmem2

/-- With no matching pattern the fold leaves the state unchanged. -/
theorem foldl_cleanStep_id (fieldName : String) :
    ∀ (l : List (List Char → Option Nat)) (st : TextScan),
      (∀ pm ∈ l, firstMatch pm st.cur = none) →
      l.foldl (cleanStep fieldName) st = st := by
  intro l
  induction l with
  | nil => intro st _; rfl
  | cons pm l2 ih =>
    intro st hall
    rw [List.foldl_cons]
    have hstep : cleanStep fieldName st pm = st := by
      unfold cleanStep
      rw [hall pm (List.mem_cons_self pm l2)]
    rw [hstep]
    exact ih st fun pm2 h2 => hall pm2 (List.mem_cons_of_mem pm h2)

/-- `cleanText` is the identity (no warnings, no change) on a field with no
dangerous matches that is already whitespace-normal. -/
theorem cleanText_id (fieldName : String) (t : String)
    (hd : noDangerStr t = true) (hw : wsNorm t.data = true) :
    cleanText fieldName t = (t, [], false) := by
  have hall : ∀ pm ∈ dangerousPatternList,
      firstMatch pm (⟨t.data, [], false⟩ : TextScan).cur = none := by
    intro pm hpm
    have h := List.all_eq_true.mp hd pm hpm
    simpa using Option.isNone_iff_eq_none.mp (by simpa using h)
  simp only [cleanText]
  rw [foldl_cleanStep_id _ _ _ hall]
  simp [collapseTrim_eq_self hw]

/-- Claim C4 counterexample: a name containing only a double space makes
the sanitizer report `changed = true` with an empty warnings list — the
whitespace collapse sets the changed flag without recording any warning. -/
theorem sanitizeWarnings_counterexample :
    ((sanitizeSiteConfig cfgWhitespaceOnly defaultSanOptions).map fun r =>
      (r.changed, r.warnings)) = some (true, []) := by
  decide

/-- Claim C4 (amended): every recorded warning implies `changed = true`,
and every removal of dangerous content from the name field appends a
warning naming that field (likewise for the other cleaned fields); but
`changed = true` does not imply a nonempty warnings list, because pure
whitespace collapsing flips the changed flag silently. -/
theorem sanitizeWarnsOnRemoval (c : SiteConfig) (opts : SanitizationOptions)
    (r : SanitizationResult) (hr : sanitizeSiteConfig c opts = some r) :
    (r.warnings ≠ [] → r.changed = true) ∧
    ((∃ pm ∈ dangerousPatternList, firstMatch pm c.name.data ≠ none) →
      r.changed = true ∧
      ∃ s, ("Removed dangerous content from name: " ++ s ++ "...") ∈ r.warnings) := by
  simp only [sanitizeSiteConfig] at hr
  cases hu : sanitizeUrls (sanitizeTextContent c).1 opts with
  | none => rw [hu] at hr; exact absurd hr (by simp)
  | some u =>
    rw [hu] at hr
    have hr2 := Option.some.inj hr
    subst hr2
    constructor
    · intro hne
      by_cases h1 : (sanitizeTextContent c).2.2 = true <;>
        by_cases h2 : u.2.2 = true <;>
        by_cases h3 : (enforceCharacterLimits u.1).2.2 = true <;>
          simp_all
    · intro hex
      have hfires := foldl_cleanStep_fires "name" dangerousPatternList
        ⟨c.name.data, [], false⟩ hex
      obtain ⟨⟨s, hs⟩, hhit⟩ := hfires
      have hwmem : ("Removed dangerous content from " ++ "name" ++ ": " ++ s ++ "...")
          ∈ (cleanText "name" c.name).2.1 := by
        simp only [cleanText]
        exact hs
      have hch : (cleanText "name" c.name).2.2 = true := by
        simp only [cleanText]
        rw [hhit]
        rfl
      have htw : ("Removed dangerous content from " ++ "name" ++ ": " ++ s ++ "...")
          ∈ (sanitizeTextContent c).2.1 := by
        simp only [sanitizeTextContent]
        exact List.mem_append_left _ (List.mem_append_left _
          (List.mem_append_left _ (List.mem_append_left _ hwmem)))
      have htc : (sanitizeTextContent c).2.2 = true := by
        simp only [sanitizeTextContent]
        rw [hch]
        rfl
      have hconv : ("Removed dangerous content from " ++ "name" ++ ": " ++ s ++ "...")
          = ("Removed dangerous content from name: " ++ s ++ "...") := by
        rw [show ("Removed dangerous content from " ++ "name" ++ ": " : String) =
          "Removed dangerous content from name: " from rfl]
      refine ⟨by simp [htc], s, ?_⟩
      rw [← hconv]
      rw [if_pos htc]
      exact List.mem_append_left _ (List.mem_append_left _ htw)

/-- Witness for the amended claim C4: on a configuration whose name is
`javascript:alert` the sanitizer reports a change and a removal warning
naming the name field. -/
theorem sanitizeWarnsOnRemoval_witness :
    ∃ r, sanitizeSiteConfig cfgDangerName defaultSanOptions = some r ∧
      r.changed = true ∧
      ∃ s, ("Removed dangerous content from name: " ++ s ++ "...") ∈ r.warnings := by
  obtain ⟨r, hr⟩ : ∃ r, sanitizeSiteConfig cfgDangerName defaultSanOptions = some r :=
    ⟨_, rfl⟩
  have h := (sanitizeWarnsOnRemoval cfgDangerName defaultSanOptions r hr).2 (by decide)
  exact ⟨r, hr, h.1, h.2⟩

/-- `truncF` does nothing within the limit. -/
theorem truncF_id {maxLength : Nat} {fieldName t : String}
    (h : t.length ≤ maxLength) : truncF maxLength fieldName t = (t, [], false) := by
  unfold truncF
  rw [if_neg (by omega)]

/-- `truncF` keeps whitespace normality. -/
theorem truncF_wsNorm {maxLength : Nat} {fieldName t : String}
    (h : wsNorm t.data = true) :
    wsNorm ((truncF maxLength fieldName t).1).data = true := by
  unfold truncF
  split
  · exact wsNorm_trimWS_take h maxLength
  · exact h

/-- `trimEnd` does not lengthen. -/
theorem trimEnd_length_le (l : List Char) : (trimEnd l).length ≤ l.length := by
  obtain ⟨t, ht⟩ := trimEnd_prefix l
  have hlen := congrArg List.length ht
  rw [List.length_append] at hlen
  omega

/-- `trimWS` does not lengthen. -/
theorem trimWS_length_le (l : List Char) : (trimWS l).length ≤ l.length := by
  unfold trimWS
  calc (trimEnd (l.dropWhile isWS)).length
      ≤ (l.dropWhile isWS).length := trimEnd_length_le _
    _ ≤ l.length := (List.dropWhile_sublist isWS).length_le

/-- `truncF` output is always within the limit. -/
theorem truncF_le {maxLength : Nat} {fieldName t : String} :
    ((truncF maxLength fieldName t).1).length ≤ maxLength := by
  unfold truncF
  split
  · next hlt =>
    show (String.mk (trimWS (t.data.take maxLength))).length ≤ maxLength
    have he : (String.mk (trimWS (t.data.take maxLength))).length =
        (trimWS (t.data.take maxLength)).length := rfl
    rw [he]
    calc (trimWS (t.data.take maxLength)).length
        ≤ (t.data.take maxLength).length := trimWS_length_le _
      _ ≤ maxLength := by rw [List.length_take]; omega
  · next hge =>
    show t.length ≤ maxLength
    omega

/-- `limitCTA` does nothing on a slot whose text is empty or within the
limit. -/
theorem limitCTA_id {fieldName : String} {o : Option CTA}
    (h : ∀ cta, o = some cta → cta.text = "" ∨ cta.text.length ≤ 50) :
    limitCTA fieldName o = (o, [], false) := by
  cases o with
  | none => rfl
  | some cta =>
    obtain ⟨tx, hf⟩ := cta
    simp only [limitCTA]
    rcases h ⟨tx, hf⟩ rfl with he | hle
    · rw [if_pos (by simp_all)]
    · by_cases he : tx == ""
      · rw [if_pos he]
      · rw [if_neg he, truncF_id hle]

/-- `limitFeature` does nothing on a feature within all limits. -/
theorem limitFeature_id {i : Nat} {f : Feature}
    (h1 : f.title.length ≤ 50) (h2 : f.description.length ≤ 120)
    (h3 : ∀ ic, f.icon = some ic → ic.length ≤ 10) :
    limitFeature i f = (f, [], false) := by
  obtain ⟨ic0, t0, d0⟩ := f
  cases ic0 with
  | none => simp [limitFeature, truncF_id h1, truncF_id h2]
  | some ic =>
    have hle := h3 ic rfl
    have hlt : decide (10 < ic.length) = false := by
      simp
      omega
    simp [limitFeature, truncF_id h1, truncF_id h2, hlt]

/-- `limitOptStr` does nothing when the field is absent, empty, or within
the limit. -/
theorem limitOptStr_id {maxLength : Nat} {fieldName : String} {o : Option String}
    (h : ∀ s, o = some s → s = "" ∨ s.length ≤ maxLength) :
    limitOptStr maxLength fieldName o = (o, [], false) := by
  cases o with
  | none => rfl
  | some s =>
    simp only [limitOptStr]
    rcases h s rfl with he | hle
    · rw [if_pos (by simp [he])]
    · by_cases he : s == ""
      · rw [if_pos he]
      · rw [if_neg he, truncF_id hle]

/-- Mapping an indexed function that is constant on its elements over an
enumeration. -/
theorem enumFrom_map_const {α β γ : Type} (g : Nat → α → α × β × γ)
    (b0 : β) (c0 : γ) :
    ∀ (l : List α) (n : Nat),
      (∀ pr ∈ List.enumFrom n l, g pr.1 pr.2 = (pr.2, b0, c0)) →
      ((List.enumFrom n l).map fun pr => g pr.1 pr.2) =
        l.map fun x => (x, b0, c0) := by
  intro l
  induction l with
  | nil => intro n _; rfl
  | cons x xs ih =>
    intro n h
    rw [List.enumFrom_cons, List.map_cons, List.map_cons,
      h (n, x) (List.mem_cons_self _ _)]
    congr 1
    exact ih (n + 1) fun pr hpr => h pr (List.mem_cons_of_mem _ hpr)

/-- Projections of a constant-triple map. -/
theorem constTriple_props {α : Type} (l : List α) :
    ((l.map fun x => (x, ([] : List String), false)).flatMap fun t => t.2.1) = [] ∧
    ((l.map fun x => (x, ([] : List String), false)).any fun t => t.2.2) = false ∧
    ((l.map fun x => (x, ([] : List String), false)).map fun t => t.1) = l := by
  induction l with
  | nil => exact ⟨rfl, rfl, rfl⟩
  | cons x xs ih =>
    refine ⟨?_, ?_, ?_⟩ <;> simp_all

/-- A URL starting with a slash exposes its head character. -/
theorem head_of_slash {u : String} (h : strStarts "/" u = true) :
    ∃ t, u.data = '/' :: t := by
  unfold strStarts prefLit at h
  cases hu : u.data with
  | nil => rw [hu] at h; simp [List.isPrefixOf] at h
  | cons d t =>
    rw [hu] at h
    simp [List.isPrefixOf] at h
    exact ⟨t, by rw [h]⟩

/-- A URL starting with `http` exposes its head character. -/
theorem head_of_http {u : String} (h : strStarts "http" u = true) :
    ∃ t, u.data = 'h' :: t := by
  unfold strStarts prefLit at h
  cases hu : u.data with
  | nil => rw [hu] at h; simp [List.isPrefixOf] at h
  | cons d t =>
    rw [hu] at h
    simp [List.isPrefixOf] at h
    exact ⟨t, by rw [h.1]⟩

/-- A slash- or `h`-headed URL never matches a dangerous protocol. -/
theorem dangerProtocol_false_head {u : String} {c : Char} {t : List Char}
    (hu : u.data = c :: t) (hc : c = '/' ∨ c = 'h') :
    dangerProtocol u = false := by
  unfold dangerProtocol
  rw [hu]
  rcases hc with hc | hc <;> subst hc <;> rfl

/-- A slash-headed URL does not start with `http`. -/
theorem strStarts_http_of_slash {u : String} {t : List Char}
    (hu : u.data = '/' :: t) : strStarts "http" u = false := by
  unfold strStarts prefLit
  rw [hu]
  rfl

/-- `validateUrl` leaves a canonical URL unchanged when no allow-list is
configured. -/
theorem validateUrlField_id (opts : SanitizationOptions) (fieldName url : String)
    (hdom : effDomains opts = [])
    (hcan : hrefCanonical opts url = true) :
    validateUrlField opts fieldName url = some (url, [], false) := by
  have hparts := andE hcan
  have hlen : url.length ≤ effMaxUrl opts := by simpa using hparts.2
  have hstart : strStarts "/" url = true ∨
      (strStarts "http" url = true ∧ effAllowExternal opts = true) := by
    simpa using hparts.1
  unfold validateUrlField
  rcases hstart with hs | ⟨hh, hext⟩
  · obtain ⟨t, hu⟩ := head_of_slash hs
    have hdp : dangerProtocol url = false := dangerProtocol_false_head hu (Or.inl rfl)
    have hnh : strStarts "http" url = false := strStarts_http_of_slash hu
    rw [if_neg (by simp [hdp]), if_neg (by simp [hnh]), if_neg (by simp [hnh])]
    unfold urlTail
    rw [if_neg (by omega), if_neg (by simp [hs])]
  · obtain ⟨t, hu⟩ := head_of_http hh
    have hdp : dangerProtocol url = false := dangerProtocol_false_head hu (Or.inr rfl)
    rw [if_neg (by simp [hdp]), if_neg (by simp [hext]),
      if_neg (by simp [hdom])]
    unfold urlTail
    rw [if_neg (by omega), if_neg (by simp [hh])]

/-- `sanitizeCTAHref` leaves a canonical slot unchanged. -/
theorem sanitizeCTAHref_id (opts : SanitizationOptions) (fieldName : String)
    (o : Option CTA) (hdom : effDomains opts = [])
    (hok : ctaSlotOK opts o = true) :
    sanitizeCTAHref opts fieldName o = some (o, [], false) := by
  cases o with
  | none => rfl
  | some cta =>
    simp only [sanitizeCTAHref]
    by_cases he : cta.href == ""
    · rw [if_pos he]
    · rw [if_neg he]
      have hcan : hrefCanonical opts cta.href = true := by
        simp only [ctaSlotOK] at hok
        rcases (by simpa using hok :
            cta.href = "" ∨ hrefCanonical opts cta.href = true) with h1 | h2
        · exact absurd (by simp [h1]) he
        · exact h2
      rw [validateUrlField_id opts fieldName cta.href hdom hcan]

/-- `sanitizeUrls` leaves a configuration with canonical hrefs unchanged
when no allow-list is configured. -/
theorem sanitizeUrls_id (c : SiteConfig) (opts : SanitizationOptions)
    (hdom : effDomains opts = []) (hok : cfgHrefsOK c opts = true) :
    sanitizeUrls c opts = some (c, [], false) := by
  cases hc : c.pages.home.hero.cta with
  | none =>
    simp only [sanitizeUrls]
    rw [hc]
  | some pair =>
    have hok2 : ctaSlotOK opts pair.primary = true ∧
        ctaSlotOK opts pair.secondary = true := by
      unfold cfgHrefsOK at hok
      rw [hc] at hok
      exact andE hok
    simp only [sanitizeUrls, hc, sanitizeCTAHref_id _ _ _ hdom hok2.1,
      sanitizeCTAHref_id _ _ _ hdom hok2.2]
    rw [show (⟨pair.primary, pair.secondary⟩ : CTAPair) = pair from rfl, ← hc]
    rfl

/-- The payload of an enumeration entry is an element of the list. -/
theorem snd_mem_of_mem_enumFrom {α : Type} {pr : Nat × α} {n : Nat}
    {l : List α} (h : pr ∈ List.enumFrom n l) : pr.2 ∈ l := by
  obtain ⟨i, x⟩ := pr
  obtain ⟨_, _, hx⟩ := List.mem_enumFrom h
  rw [hx]
  exact List.getElem_mem _

/-- `cleanFeature` is the identity on a clean, normalised feature. -/
theorem cleanFeature_id (i : Nat) (f : Feature)
    (ht : noDangerStr f.title = true) (hwt : wsNorm f.title.data = true)
    (hd : noDangerStr f.description = true)
    (hwd : wsNorm f.description.data = true) :
    cleanFeature i f = (f, [], false) := by
  obtain ⟨ic0, t0, d0⟩ := f
  simp only [cleanFeature, cleanText_id _ _ ht hwt, cleanText_id _ _ hd hwd]
  rfl

/-- `sanitizeTextContent` is the identity on a clean, whitespace-normal
configuration. -/
theorem sanitizeTextContent_id (c : SiteConfig)
    (h1 : noDangerStr c.name = true) (hw1 : wsNorm c.name.data = true)
    (h2 : noDangerStr c.description = true)
    (hw2 : wsNorm c.description.data = true)
    (h3 : noDangerStr c.pages.home.hero.title = true)
    (hw3 : wsNorm c.pages.home.hero.title.data = true)
    (h4 : noDangerStr c.pages.home.hero.subtitle = true)
    (hw4 : wsNorm c.pages.home.hero.subtitle.data = true)
    (hf : ∀ f ∈ c.pages.home.features,
      noDangerStr f.title = true ∧ wsNorm f.title.data = true ∧
      noDangerStr f.description = true ∧ wsNorm f.description.data = true) :
    sanitizeTextContent c = (c, [], false) := by
  have hmap : ((List.enumFrom 0 c.pages.home.features).map
      fun pr => cleanFeature pr.1 pr.2) =
      c.pages.home.features.map fun x => (x, ([] : List String), false) := by
    refine enumFrom_map_const _ _ _ _ 0 ?_
    intro pr hpr
    have hmem := snd_mem_of_mem_enumFrom hpr
    obtain ⟨a1, a2, a3, a4⟩ := hf pr.2 hmem
    exact cleanFeature_id pr.1 pr.2 a1 a2 a3 a4
  obtain ⟨hfl, hany, hfst⟩ := constTriple_props c.pages.home.features
  simp only [sanitizeTextContent, List.enum_eq_enumFrom, hmap,
    cleanText_id _ _ h1 hw1, cleanText_id _ _ h2 hw2,
    cleanText_id _ _ h3 hw3, cleanText_id _ _ h4 hw4, hfl, hany, hfst]
  rfl

/-- `limitCTAPair` is the identity within the limits. -/
theorem limitCTAPair_id (o : Option CTAPair)
    (h : ∀ p, o = some p →
      (∀ cta, p.primary = some cta → cta.text = "" ∨ cta.text.length ≤ 50) ∧
      (∀ cta, p.secondary = some cta → cta.text = "" ∨ cta.text.length ≤ 50)) :
    limitCTAPair o = (o, [], false) := by
  cases o with
  | none => rfl
  | some pair =>
    obtain ⟨hp, hs⟩ := h pair rfl
    simp only [limitCTAPair, limitCTA_id hp, limitCTA_id hs]
    rfl

/-- `limitAbout` is the identity within the limits. -/
theorem limitAbout_id (o : Option AboutPage)
    (h : ∀ a, o = some a → ∀ b, a.blurb = some b → b = "" ∨ b.length ≤ 500) :
    limitAbout o = (o, [], false) := by
  cases o with
  | none => rfl
  | some a =>
    simp only [limitAbout, limitOptStr_id (h a rfl)]

/-- `limitContact` is the identity within the limits. -/
theorem limitContact_id (o : Option ContactPage)
    (h : ∀ ct, o = some ct → ∀ e, ct.emailPlaceholder = some e →
      e = "" ∨ e.length ≤ 100) :
    limitContact o = (o, [], false) := by
  cases o with
  | none => rfl
  | some ct =>
    simp only [limitContact, limitOptStr_id (h ct rfl)]

/-- `enforceCharacterLimits` is the identity on a configuration within all
limits. -/
theorem enforceCharacterLimits_id (c : SiteConfig)
    (h1 : c.name.length ≤ 100) (h2 : c.description.length ≤ 200)
    (h3 : c.pages.home.hero.title.length ≤ 60)
    (h4 : c.pages.home.hero.subtitle.length ≤ 300)
    (hf : ∀ f ∈ c.pages.home.features, f.title.length ≤ 50 ∧
      f.description.length ≤ 120 ∧ ∀ ic, f.icon = some ic → ic.length ≤ 10)
    (hcta : ∀ p, c.pages.home.hero.cta = some p →
      (∀ cta, p.primary = some cta → cta.text = "" ∨ cta.text.length ≤ 50) ∧
      (∀ cta, p.secondary = some cta → cta.text = "" ∨ cta.text.length ≤ 50))
    (hab : ∀ a, c.pages.about = some a → ∀ b, a.blurb = some b →
      b = "" ∨ b.length ≤ 500)
    (hct : ∀ ct, c.pages.contact = some ct → ∀ e, ct.emailPlaceholder = some e →
      e = "" ∨ e.length ≤ 100) :
    enforceCharacterLimits c = (c, [], false) := by
  have hmap : ((List.enumFrom 0 c.pages.home.features).map
      fun pr => limitFeature pr.1 pr.2) =
      c.pages.home.features.map fun x => (x, ([] : List String), false) := by
    refine enumFrom_map_const _ _ _ _ 0 ?_
    intro pr hpr
    have hmem := snd_mem_of_mem_enumFrom hpr
    obtain ⟨a1, a2, a3⟩ := hf pr.2 hmem
    exact limitFeature_id a1 a2 a3
  obtain ⟨hfl, hany, hfst⟩ := constTriple_props c.pages.home.features
  simp only [enforceCharacterLimits, List.enum_eq_enumFrom, hmap,
    truncF_id h1, truncF_id h2, truncF_id h3, truncF_id h4,
    limitCTAPair_id _ hcta, limitAbout_id _ hab, limitContact_id _ hct,
    hfl, hany, hfst]
  rfl

/-- Any CTA text coming out of `limitCTA` is empty or within 50
characters. -/
theorem limitCTA_texts (fieldName : String) (o : Option CTA) :
    ∀ cta, (limitCTA fieldName o).1 = some cta →
      cta.text = "" ∨ cta.text.length ≤ 50 := by
  cases o with
  | none => intro cta h; exact absurd h (by simp [limitCTA])
  | some c0 =>
    intro cta h
    by_cases he : c0.text == ""
    · simp only [limitCTA, if_pos he] at h
      obtain rfl := Option.some.inj h
      exact Or.inl (by simpa using he)
    · simp only [limitCTA, if_neg he] at h
      obtain rfl := Option.some.inj h
      exact Or.inr truncF_le

/-- Any CTA pair coming out of `limitCTAPair` has both texts within the
limit. -/
theorem limitCTAPair_bounds (o : Option CTAPair) :
    ∀ p, (limitCTAPair o).1 = some p →
      (∀ cta, p.primary = some cta → cta.text = "" ∨ cta.text.length ≤ 50) ∧
      (∀ cta, p.secondary = some cta → cta.text = "" ∨ cta.text.length ≤ 50) := by
  cases o with
  | none => intro p h; exact absurd h (by simp [limitCTAPair])
  | some pair =>
    intro p h
    have h2 : some (⟨(limitCTA "hero.cta.primary.text" pair.primary).1,
        (limitCTA "hero.cta.secondary.text" pair.secondary).1⟩ : CTAPair) = some p := h
    obtain rfl := Option.some.inj h2
    exact ⟨fun cta hc => limitCTA_texts _ _ cta hc,
           fun cta hc => limitCTA_texts _ _ cta hc⟩

/-- Any string coming out of `limitOptStr` is empty or within the limit. -/
theorem limitOptStr_bounds (maxLength : Nat) (fieldName : String)
    (o : Option String) :
    ∀ s, (limitOptStr maxLength fieldName o).1 = some s →
      s = "" ∨ s.length ≤ maxLength := by
  cases o with
  | none => intro s h; exact absurd h (by simp [limitOptStr])
  | some s0 =>
    intro s h
    by_cases he : s0 == ""
    · simp only [limitOptStr, if_pos he] at h
      obtain rfl := Option.some.inj h
      exact Or.inl (by simpa using he)
    · simp only [limitOptStr, if_neg he] at h
      obtain rfl := Option.some.inj h
      exact Or.inr truncF_le

/-- Any about page coming out of `limitAbout` has its blurb within the
limit. -/
theorem limitAbout_bounds (o : Option AboutPage) :
    ∀ a, (limitAbout o).1 = some a → ∀ b, a.blurb = some b →
      b = "" ∨ b.length ≤ 500 := by
  cases o with
  | none => intro a h; exact absurd h (by simp [limitAbout])
  | some a0 =>
    intro a h b hb
    have h2 : some (⟨a0.hero, (limitOptStr 500 "about.blurb" a0.blurb).1,
        a0.team⟩ : AboutPage) = some a := h
    obtain rfl := Option.some.inj h2
    exact limitOptStr_bounds 500 "about.blurb" a0.blurb b hb

/-- Any contact page coming out of `limitContact` has its email
placeholder within the limit. -/
theorem limitContact_bounds (o : Option ContactPage) :
    ∀ ct, (limitContact o).1 = some ct → ∀ e, ct.emailPlaceholder = some e →
      e = "" ∨ e.length ≤ 100 := by
  cases o with
  | none => intro ct h; exact absurd h (by simp [limitContact])
  | some c0 =>
    intro ct h e he
    have h2 : some (⟨c0.hero,
        (limitOptStr 100 "contact.emailPlaceholder" c0.emailPlaceholder).1,
        c0.address, c0.phone⟩ : ContactPage) = some ct := h
    obtain rfl := Option.some.inj h2
    exact limitOptStr_bounds 100 "contact.emailPlaceholder" c0.emailPlaceholder e he

/-- Output bounds of `limitFeature`: title within 50, description within
120, icon within 10. -/
theorem limitFeature_bounds (i : Nat) (f : Feature) :
    (limitFeature i f).1.title.length ≤ 50 ∧
    (limitFeature i f).1.description.length ≤ 120 ∧
    ∀ ic, (limitFeature i f).1.icon = some ic → ic.length ≤ 10 := by
  obtain ⟨ic0, t0, d0⟩ := f
  cases ic0 with
  | none =>
    refine ⟨truncF_le, truncF_le, ?_⟩
    intro ic hic
    exact absurd hic (by simp [limitFeature])
  | some ic1 =>
    refine ⟨truncF_le, truncF_le, ?_⟩
    intro ic hic
    by_cases hcond : (ic1 != "" && decide (10 < ic1.length)) = true
    · have hic2 : some (String.mk (ic1.data.take 10)) = some ic := by
        simpa [limitFeature, hcond] using hic
      obtain rfl := Option.some.inj hic2
      have hlen : (String.mk (ic1.data.take 10)).length =
          (ic1.data.take 10).length := rfl
      rw [hlen, List.length_take]
      omega
    · have hic2 : some ic1 = some ic := by
        simpa [limitFeature, hcond] using hic
      obtain rfl := Option.some.inj hic2
      rcases Decidable.em (ic1 = "") with he | hne
      · subst he; decide
      · by_contra hlen
        apply hcond
        refine andI ?_ ?_
        · simpa [bne] using hne
        · simpa using by omega

/-- `limitFeature` keeps whitespace normality of title and description. -/
theorem limitFeature_wsNorm (i : Nat) (f : Feature)
    (ht : wsNorm f.title.data = true) (hd : wsNorm f.description.data = true) :
    wsNorm (limitFeature i f).1.title.data = true ∧
    wsNorm (limitFeature i f).1.description.data = true :=
  ⟨truncF_wsNorm ht, truncF_wsNorm hd⟩

/-- Members of the first projection of an indexed map over an
enumeration. -/
theorem mem_enum_map_fst {α β γ : Type} (g : Nat → α → α × β × γ) (l : List α)
    (x : α) (hx : x ∈ (l.enum.map fun pr => g pr.1 pr.2).map fun t => t.1) :
    ∃ i f0, f0 ∈ l ∧ x = (g i f0).1 := by
  obtain ⟨t, ht, hxt⟩ := List.mem_map.mp hx
  obtain ⟨pr, hpr, hgt⟩ := List.mem_map.mp ht
  rw [List.enum_eq_enumFrom] at hpr
  refine ⟨pr.1, pr.2, snd_mem_of_mem_enumFrom hpr, ?_⟩
  rw [← hxt, ← hgt]

/-- Every output of `cleanText` is whitespace-normal. -/
theorem cleanText_wsNorm (fieldName t : String) :
    wsNorm ((cleanText fieldName t).1).data = true := by
  simp only [cleanText]
  exact wsNorm_collapseTrim _

/-- Every text field of the `sanitizeTextContent` output is
whitespace-normal. -/
theorem sanitizeTextContent_wsNorm (c : SiteConfig) :
    wsNorm ((sanitizeTextContent c).1).name.data = true ∧
    wsNorm ((sanitizeTextContent c).1).description.data = true ∧
    wsNorm ((sanitizeTextContent c).1).pages.home.hero.title.data = true ∧
    wsNorm ((sanitizeTextContent c).1).pages.home.hero.subtitle.data = true ∧
    ∀ f ∈ ((sanitizeTextContent c).1).pages.home.features,
      wsNorm f.title.data = true ∧ wsNorm f.description.data = true := by
  refine ⟨cleanText_wsNorm _ _, cleanText_wsNorm _ _, cleanText_wsNorm _ _,
    cleanText_wsNorm _ _, ?_⟩
  intro f hf
  have hf2 : f ∈ (c.pages.home.features.enum.map
      fun pr => cleanFeature pr.1 pr.2).map fun t => t.1 := hf
  obtain ⟨i, f0, hmem, hx⟩ := mem_enum_map_fst cleanFeature c.pages.home.features f hf2
  subst hx
  exact ⟨cleanText_wsNorm _ _, cleanText_wsNorm _ _⟩

/-- `sanitizeUrls` only rewrites the CTA hrefs: every other field of its
output equals the corresponding input field. -/
theorem sanitizeUrls_fields (cfg : SiteConfig) (opts : SanitizationOptions)
    (u : SiteConfig × List String × Bool) (hu : sanitizeUrls cfg opts = some u) :
    u.1.name = cfg.name ∧ u.1.description = cfg.description ∧
    u.1.pages.home.hero.title = cfg.pages.home.hero.title ∧
    u.1.pages.home.hero.subtitle = cfg.pages.home.hero.subtitle ∧
    u.1.pages.home.features = cfg.pages.home.features ∧
    u.1.pages.about = cfg.pages.about ∧
    u.1.pages.contact = cfg.pages.contact := by
  cases hc : cfg.pages.home.hero.cta with
  | none =>
    simp only [sanitizeUrls, hc] at hu
    obtain rfl := Option.some.inj hu
    exact ⟨rfl, rfl, rfl, rfl, rfl, rfl, rfl⟩
  | some pair =>
    simp only [sanitizeUrls, hc] at hu
    cases hp : sanitizeCTAHref opts "hero.cta.primary.href" pair.primary with
    | none => simp [hp] at hu
    | some p =>
      simp only [hp] at hu
      cases hs : sanitizeCTAHref opts "hero.cta.secondary.href" pair.secondary with
      | none => simp [hs] at hu
      | some sdy =>
        simp only [hs] at hu
        obtain rfl := Option.some.inj hu
        exact ⟨rfl, rfl, rfl, rfl, rfl, rfl, rfl⟩

/-- Output invariants of `enforceCharacterLimits`: every bounded field is
within its limit, whitespace normality of text fields is preserved, and
optional texts are empty or within their limits. -/
theorem enforceCharacterLimits_wf (cfg : SiteConfig)
    (hw1 : wsNorm cfg.name.data = true)
    (hw2 : wsNorm cfg.description.data = true)
    (hw3 : wsNorm cfg.pages.home.hero.title.data = true)
    (hw4 : wsNorm cfg.pages.home.hero.subtitle.data = true)
    (hwf : ∀ f ∈ cfg.pages.home.features,
      wsNorm f.title.data = true ∧ wsNorm f.description.data = true) :
    ((enforceCharacterLimits cfg).1).name.length ≤ 100 ∧
    wsNorm ((enforceCharacterLimits cfg).1).name.data = true ∧
    ((enforceCharacterLimits cfg).1).description.length ≤ 200 ∧
    wsNorm ((enforceCharacterLimits cfg).1).description.data = true ∧
    ((enforceCharacterLimits cfg).1).pages.home.hero.title.length ≤ 60 ∧
    wsNorm ((enforceCharacterLimits cfg).1).pages.home.hero.title.data = true ∧
    ((enforceCharacterLimits cfg).1).pages.home.hero.subtitle.length ≤ 300 ∧
    wsNorm ((enforceCharacterLimits cfg).1).pages.home.hero.subtitle.data = true ∧
    (∀ f ∈ ((enforceCharacterLimits cfg).1).pages.home.features,
      f.title.length ≤ 50 ∧ wsNorm f.title.data = true ∧
      f.description.length ≤ 120 ∧ wsNorm f.description.data = true ∧
      ∀ ic, f.icon = some ic → ic.length ≤ 10) ∧
    (∀ p, ((enforceCharacterLimits cfg).1).pages.home.hero.cta = some p →
      (∀ cta, p.primary = some cta → cta.text = "" ∨ cta.text.length ≤ 50) ∧
      (∀ cta, p.secondary = some cta → cta.text = "" ∨ cta.text.length ≤ 50)) ∧
    (∀ a, ((enforceCharacterLimits cfg).1).pages.about = some a →
      ∀ b, a.blurb = some b → b = "" ∨ b.length ≤ 500) ∧
    (∀ ct, ((enforceCharacterLimits cfg).1).pages.contact = some ct →
      ∀ e, ct.emailPlaceholder = some e → e = "" ∨ e.length ≤ 100) := by
  refine ⟨truncF_le, truncF_wsNorm hw1, truncF_le, truncF_wsNorm hw2,
    truncF_le, truncF_wsNorm hw3, truncF_le, truncF_wsNorm hw4, ?_, ?_, ?_, ?_⟩
  · intro f hf
    have hf2 : f ∈ (cfg.pages.home.features.enum.map
        fun pr => limitFeature pr.1 pr.2).map fun t => t.1 := hf
    obtain ⟨i, f0, hmem, hx⟩ := mem_enum_map_fst limitFeature cfg.pages.home.features f hf2
    subst hx
    obtain ⟨hb1, hb2, hb3⟩ := limitFeature_bounds i f0
    obtain ⟨hn1, hn2⟩ := limitFeature_wsNorm i f0 (hwf f0 hmem).1 (hwf f0 hmem).2
    exact ⟨hb1, hn1, hb2, hn2, hb3⟩
  · intro p hp
    exact limitCTAPair_bounds cfg.pages.home.hero.cta p hp
  · intro a ha
    exact limitAbout_bounds cfg.pages.about a ha
  · intro ct hct
    exact limitContact_bounds cfg.pages.contact ct hct

/-- Claim C5 counterexample: on the configuration whose name interleaves
two copies of `javascript:`, the single-pass pattern removal of the first
sanitization recreates the string `javascript:`, so the second application
of `sanitizeSiteConfig` changes the configuration again and reports
`changed = true` — sanitization is not idempotent. -/
theorem sanitizeIdempotence_counterexample :
    ((sanitizeSiteConfig cfgOverlap defaultSanOptions).bind fun r1 =>
      (sanitizeSiteConfig r1.sanitized defaultSanOptions).map fun r2 =>
        (decide (r2.sanitized = r1.sanitized), r2.changed)) = some (false, true) := by
  decide

/-- Claim C5 (amended): sanitization is idempotent on outputs that are
stable for the second pass — whenever the first pass returns `r`, no
domain allow-list is configured, the output text no longer matches any
dangerous pattern, and the output CTA hrefs are in canonical form, then
the second pass returns exactly `r.sanitized` with no warnings and
`changed = false`.  (The unamended claim is refuted by
the interleaved-`javascript:` counterexample: single-pass removal can
recreate a dangerous pattern, so a hypothesis excluding that is
required.) -/
theorem sanitizeIdempotentOnStable (c : SiteConfig) (opts : SanitizationOptions)
    (r : SanitizationResult) (hr : sanitizeSiteConfig c opts = some r)
    (hdom : effDomains opts = [])
    (hnd : cfgNoDanger r.sanitized = true)
    (hok : cfgHrefsOK r.sanitized opts = true) :
    sanitizeSiteConfig r.sanitized opts = some ⟨r.sanitized, [], false⟩ := by
  simp only [sanitizeSiteConfig] at hr
  cases hu : sanitizeUrls (sanitizeTextContent c).1 opts with
  | none => rw [hu] at hr; exact absurd hr (by simp)
  | some u =>
    rw [hu] at hr
    have hr2 := Option.some.inj hr
    have hsan : r.sanitized = (enforceCharacterLimits u.1).1 := by rw [← hr2]
    obtain ⟨e1, e2, e3, e4, e5, e6, e7⟩ := sanitizeUrls_fields _ opts u hu
    obtain ⟨w1, w2, w3, w4, w5⟩ := sanitizeTextContent_wsNorm c
    have uw1 : wsNorm u.1.name.data = true := by rw [e1]; exact w1
    have uw2 : wsNorm u.1.description.data = true := by rw [e2]; exact w2
    have uw3 : wsNorm u.1.pages.home.hero.title.data = true := by rw [e3]; exact w3
    have uw4 : wsNorm u.1.pages.home.hero.subtitle.data = true := by rw [e4]; exact w4
    have uw5 : ∀ f ∈ u.1.pages.home.features,
        wsNorm f.title.data = true ∧ wsNorm f.description.data = true := by
      rw [e5]; exact w5
    obtain ⟨b1, n1, b2, n2, b3, n3, b4, n4, bf, bcta, bab, bct⟩ :=
      enforceCharacterLimits_wf u.1 uw1 uw2 uw3 uw4 uw5
    rw [← hsan] at b1 n1 b2 n2 b3 n3 b4 n4 bf bcta bab bct
    unfold cfgNoDanger at hnd
    have h5 := andE hnd
    have h4 := andE h5.1
    have h3 := andE h4.1
    have h2 := andE h3.1
    have hfd : ∀ f ∈ r.sanitized.pages.home.features,
        noDangerStr f.title = true ∧ noDangerStr f.description = true := by
      intro f hf
      exact andE (List.all_eq_true.mp h5.2 f hf)
    have ht : sanitizeTextContent r.sanitized = (r.sanitized, [], false) :=
      sanitizeTextContent_id r.sanitized h2.1 n1 h2.2 n2 h3.2 n3 h4.2 n4
        (fun f hf => ⟨(hfd f hf).1, (bf f hf).2.1, (hfd f hf).2, (bf f hf).2.2.2.1⟩)
    have hu2 : sanitizeUrls r.sanitized opts = some (r.sanitized, [], false) :=
      sanitizeUrls_id r.sanitized opts hdom hok
    have hl : enforceCharacterLimits r.sanitized = (r.sanitized, [], false) :=
      enforceCharacterLimits_id r.sanitized b1 b2 b3 b4
        (fun f hf => ⟨(bf f hf).1, (bf f hf).2.2.1, (bf f hf).2.2.2.2⟩)
        bcta bab bct
    simp only [sanitizeSiteConfig, ht, hu2, hl]
    rfl

/-- Witness for the amended claim C5: the clean configuration is a fixed
point of sanitization, and the second pass on the first pass's output is
the identity with `changed = false`. -/
theorem sanitizeIdempotentOnStable_witness :
    sanitizeSiteConfig cfgClean defaultSanOptions =
      some (SanitizationResult.mk cfgClean [] false) ∧
    sanitizeSiteConfig (SanitizationResult.mk cfgClean [] false).sanitized
        defaultSanOptions =
      some (SanitizationResult.mk
        (SanitizationResult.mk cfgClean [] false).sanitized [] false) := by
  constructor
  · decide
  · exact sanitizeIdempotentOnStable cfgClean defaultSanOptions
      (SanitizationResult.mk cfgClean [] false) (by decide) (by decide)
      (by decide) (by decide)

/-- Taking a prefix preserves a non-whitespace head. -/
theorem headNotWS_take (l : List Char) (k : Nat) (h : headNotWS l = true) :
    headNotWS (l.take k) = true := by
  cases l with
  | nil => rw [List.take_nil]; exact h
  | cons c t =>
    cases k with
    | zero => rfl
    | succ k => rw [List.take_succ_cons]; exact h

/-- A prefix cut right after a non-whitespace character has a
non-whitespace last element. -/
theorem lastNotWS_take_succ {l : List Char} {j : Nat} {c : Char}
    (hc : l[j]? = some c) (hnw : isWS c = false) :
    lastNotWS (l.take (j + 1)) = true := by
  have hj : j < l.length := (List.getElem?_eq_some.mp hc).1
  have hlast : (l.take (j + 1)).getLast? = some c := by
    rw [List.getLast?_eq_getElem?]
    have hlen : (l.take (j + 1)).length = j + 1 := by
      rw [List.length_take]; omega
    rw [hlen]
    simpa [List.getElem?_take_of_lt] using hc
  unfold lastNotWS
  rw [hlast]
  simp [hnw]

/-- Trimming the prefix cut right after a non-whitespace character of a
whitespace-normal list is the identity. -/
theorem trimWS_take_eq {l : List Char} {j k : Nat} {c : Char}
    (hw : wsNorm l = true) (hc : l[j]? = some c) (hnw : isWS c = false)
    (hk : k = j + 1) :
    trimWS (l.take k) = l.take k := by
  subst hk
  unfold wsNorm at hw
  have h3 := andE hw
  have h2 := andE h3.1
  exact trimWS_eq_self (headNotWS_take l (j + 1) h2.2) (lastNotWS_take_succ hc hnw)

/-- Indexing the first projection of an indexed map over an
enumeration. -/
theorem getElem?_enum_map {α β γ : Type} (g : Nat → α → α × β × γ) (l : List α)
    (i : Nat) (x : α) (h : l[i]? = some x) :
    ((l.enum.map fun pr => g pr.1 pr.2).map fun t => t.1)[i]? = some (g i x).1 := by
  rw [List.getElem?_map, List.getElem?_map, List.getElem?_enum, h]
  rfl

/-- An indexed map over an enumeration contains the image of every list
entry. -/
theorem mem_enum_map_of_getElem {α β γ : Type} (g : Nat → α → α × β × γ)
    (l : List α) (i : Nat) (x : α) (h : l[i]? = some x) :
    g i x ∈ l.enum.map fun pr => g pr.1 pr.2 := by
  refine List.mem_map.mpr ⟨(i, x), ?_, rfl⟩
  have he : l.enum[i]? = some (i, x) := by rw [List.getElem?_enum, h]; rfl
  exact List.getElem?_mem he

/-- How the description limit of `limitFeature` surfaces in its output:
the new description is the truncation result, the truncation warnings are
kept, and the truncation change flag forces the feature change flag. -/
theorem limitFeature_desc_facts (i : Nat) (f : Feature) :
    (limitFeature i f).1.description =
      (truncF 120 ("features[" ++ toString i ++ "].description") f.description).1 ∧
    (∀ w ∈ (truncF 120 ("features[" ++ toString i ++ "].description")
        f.description).2.1, w ∈ (limitFeature i f).2.1) ∧
    ((truncF 120 ("features[" ++ toString i ++ "].description")
        f.description).2.2 = true → (limitFeature i f).2.2 = true) := by
  obtain ⟨ic0, t0, d0⟩ := f
  simp only [limitFeature]
  refine ⟨trivial, ?_, ?_⟩
  · intro w hw
    exact List.mem_append_left _ (List.mem_append_right _ hw)
  · intro h
    rw [h]
    simp

/-- A change reported by one feature's limiter forces the change flag of
`enforceCharacterLimits`. -/
theorem enforceCharacterLimits_changed_of_feature (cfg : SiteConfig) (i : Nat)
    (f : Feature) (hget : cfg.pages.home.features[i]? = some f)
    (hch : (limitFeature i f).2.2 = true) :
    (enforceCharacterLimits cfg).2.2 = true := by
  have hany : (cfg.pages.home.features.enum.map
      fun pr => limitFeature pr.1 pr.2).any (fun t => t.2.2) = true :=
    List.any_eq_true.mpr ⟨_, mem_enum_map_of_getElem limitFeature _ i f hget, hch⟩
  simp only [enforceCharacterLimits]
  rw [hany]
  simp

/-- A warning recorded by one feature's limiter is kept by
`enforceCharacterLimits`. -/
theorem enforceCharacterLimits_warn_of_feature (cfg : SiteConfig) (i : Nat)
    (f : Feature) (hget : cfg.pages.home.features[i]? = some f)
    (w : String) (hw : w ∈ (limitFeature i f).2.1) :
    w ∈ (enforceCharacterLimits cfg).2.1 := by
  have hflat : w ∈ (cfg.pages.home.features.enum.map
      fun pr => limitFeature pr.1 pr.2).flatMap fun t => t.2.1 :=
    List.mem_flatMap.mpr ⟨_, mem_enum_map_of_getElem limitFeature _ i f hget, hw⟩
  simp only [enforceCharacterLimits, List.mem_append]
  tauto

/-- Claim C6 counterexample: a 200-character feature description whose
120-character cut ends right after a space comes out of
`sanitizeSiteConfig` with length 119, not 120 — `truncateField` trims the
cut, so the claimed exact length of 120 fails. -/
theorem truncation120_counterexample :
    ((sanitizeSiteConfig cfgSplitDesc defaultSanOptions).map fun r =>
      r.sanitized.pages.home.features.map fun f => f.description.length) =
      some [119] := by
  decide

/-- Claim C6 (amended): for a feature whose description has exactly 200
characters, survives the text stage unchanged, and whose character at
index 119 is not whitespace, the sanitized description has length exactly
120 and the warnings cite the truncation from 200 to 120 characters.
(The unamended claim fails when the character at the cut is trimmable
whitespace: the result then has fewer than 120 characters.) -/
theorem truncationAt120 (c : SiteConfig) (opts : SanitizationOptions)
    (r : SanitizationResult) (i : Nat) (f : Feature)
    (hr : sanitizeSiteConfig c opts = some r)
    (hget : c.pages.home.features[i]? = some f)
    (hlen : f.description.length = 200)
    (hnd : noDangerStr f.description = true)
    (hwn : wsNorm f.description.data = true)
    (hch : ∃ ch, f.description.data[119]? = some ch ∧ isWS ch = false) :
    ∃ g, r.sanitized.pages.home.features[i]? = some g ∧
      g.description.length = 120 ∧
      ("Truncated features[" ++ toString i ++
        "].description from 200 to 120 characters") ∈ r.warnings := by
  obtain ⟨ch, hc119, hnw⟩ := hch
  simp only [sanitizeSiteConfig] at hr
  cases hu : sanitizeUrls (sanitizeTextContent c).1 opts with
  | none => rw [hu] at hr; exact absurd hr (by simp)
  | some u =>
    rw [hu] at hr
    have hr2 := Option.some.inj hr
    have hsan : r.sanitized = (enforceCharacterLimits u.1).1 := by rw [← hr2]
    have hwarn : r.warnings =
        (if (sanitizeTextContent c).2.2 then (sanitizeTextContent c).2.1 else []) ++
        (if u.2.2 then u.2.1 else []) ++
        (if (enforceCharacterLimits u.1).2.2 then (enforceCharacterLimits u.1).2.1
          else []) := by
      rw [← hr2]
    have hA : (sanitizeTextContent c).1.pages.home.features =
        (c.pages.home.features.enum.map fun pr => cleanFeature pr.1 pr.2).map
          fun t => t.1 := rfl
    have hft : (sanitizeTextContent c).1.pages.home.features[i]? =
        some ((cleanFeature i f).1) := by
      rw [hA]
      exact getElem?_enum_map cleanFeature _ i f hget
    have hdesc : ((cleanFeature i f).1).description = f.description := by
      simp only [cleanFeature, cleanText_id _ _ hnd hwn]
    obtain ⟨e1, e2, e3, e4, e5, e6, e7⟩ := sanitizeUrls_fields _ opts u hu
    have hfu : u.1.pages.home.features[i]? = some ((cleanFeature i f).1) := by
      rw [e5]; exact hft
    have hE : (enforceCharacterLimits u.1).1.pages.home.features =
        (u.1.pages.home.features.enum.map fun pr => limitFeature pr.1 pr.2).map
          fun t => t.1 := rfl
    have hgl : (enforceCharacterLimits u.1).1.pages.home.features[i]? =
        some ((limitFeature i ((cleanFeature i f).1)).1) := by
      rw [hE]
      exact getElem?_enum_map limitFeature _ i _ hfu
    have htr : truncF 120 ("features[" ++ toString i ++ "].description")
        f.description =
        (String.mk (trimWS (f.description.data.take 120)),
         ["Truncated " ++ ("features[" ++ toString i ++ "].description") ++
           " from " ++ toString (200 : Nat) ++ " to " ++ toString (120 : Nat) ++
           " characters"],
         true) := by
      unfold truncF
      rw [if_pos (by omega), hlen]
    obtain ⟨hfd1, hfd2, hfd3⟩ := limitFeature_desc_facts i ((cleanFeature i f).1)
    have hconv : ("Truncated " ++ ("features[" ++ toString i ++ "].description") ++
        " from " ++ toString (200 : Nat) ++ " to " ++ toString (120 : Nat) ++
        " characters") =
        "Truncated features[" ++ toString i ++
          "].description from 200 to 120 characters" := by
      have h200 : toString (200 : Nat) = "200" := rfl
      have h120 : toString (120 : Nat) = "120" := rfl
      rw [h200, h120]
      simp only [String.append_assoc]
      rw [← String.append_assoc]
      rfl
    refine ⟨(limitFeature i ((cleanFeature i f).1)).1, ?_, ?_, ?_⟩
    · rw [hsan]; exact hgl
    · rw [hfd1, hdesc, htr]
      have hlq : (String.mk (trimWS (f.description.data.take 120))).length =
          (trimWS (f.description.data.take 120)).length := rfl
      have hdl : f.description.data.length = 200 := hlen
      rw [show ((String.mk (trimWS (f.description.data.take 120)),
          ["Truncated " ++ ("features[" ++ toString i ++ "].description") ++
            " from " ++ toString (200 : Nat) ++ " to " ++ toString (120 : Nat) ++
            " characters"], true) :
          String × List String × Bool).1 =
          String.mk (trimWS (f.description.data.take 120)) from rfl]
      rw [hlq, trimWS_take_eq hwn hc119 hnw (by omega), List.length_take]
      omega
    · have hwd : ("Truncated " ++ ("features[" ++ toString i ++ "].description") ++
          " from " ++ toString (200 : Nat) ++ " to " ++ toString (120 : Nat) ++
          " characters") ∈
          (truncF 120 ("features[" ++ toString i ++ "].description")
            ((cleanFeature i f).1).description).2.1 := by
        rw [hdesc, htr]
        exact List.mem_singleton.mpr rfl
      have hdch : (truncF 120 ("features[" ++ toString i ++ "].description")
          ((cleanFeature i f).1).description).2.2 = true := by
        rw [hdesc, htr]
      have hwfeat := hfd2 _ hwd
      have hfch := hfd3 hdch
      have hlch := enforceCharacterLimits_changed_of_feature u.1 i _ hfu hfch
      have hwlim := enforceCharacterLimits_warn_of_feature u.1 i _ hfu _ hwfeat
      rw [hwarn, if_pos hlch, ← hconv]
      exact List.mem_append_right _ hwlim

/-- Witness for the amended claim C6: the plain 200-character description
(no whitespace at the cut) comes out at exactly 120 characters with the
truncation warning recorded. -/
theorem truncationAt120_witness :
    ∃ g r, sanitizeSiteConfig cfgPlainDesc defaultSanOptions = some r ∧
      r.sanitized.pages.home.features[0]? = some g ∧
      g.description.length = 120 ∧
      ("Truncated features[" ++ toString (0 : Nat) ++
        "].description from 200 to 120 characters") ∈ r.warnings := by
  obtain ⟨r, hr⟩ : ∃ r, sanitizeSiteConfig cfgPlainDesc defaultSanOptions = some r :=
    ⟨_, rfl⟩
  obtain ⟨g, h1, h2, h3⟩ := truncationAt120 cfgPlainDesc defaultSanOptions r 0
    ⟨none, "F", descPlain200⟩ hr (by decide) (by decide) (by decide) (by decide)
    ⟨'y', by decide, by decide⟩
  exact ⟨g, r, hr, h1, h2, h3⟩

/-- The guarded buffer comparison of `verifyWebhookSignature` succeeds
exactly on equal byte lists. -/
theorem beqGuard_iff (eb pb : List Nat) :
    (if eb.length == pb.length then eb == pb else false) = true ↔ eb = pb := by
  by_cases hl : (eb.length == pb.length) = true
  · rw [if_pos hl]
    simp
  · rw [if_neg hl]
    constructor
    · intro h; exact absurd h (by simp)
    · intro h; subst h; exact absurd (by simp) hl

/-- `String.replace` with a pattern that is a prefix removes exactly the
pattern. -/
theorem replaceFirst_prepend (pat x : String) :
    replaceFirst (pat ++ x) pat = x := by
  have hpre : prefLit pat.data ((pat ++ x).data.drop 0) = true := by
    rw [List.drop_zero, String.data_append]
    unfold prefLit
    exact List.isPrefixOf_iff_prefix.mpr (List.prefix_append _ _)
  have hidx : firstIdxOfSub (pat ++ x).data pat.data = some 0 := by
    unfold firstIdxOfSub
    rw [List.range_succ_eq_map, List.find?_cons_of_pos]
    simpa using hpre
  unfold replaceFirst
  rw [hidx]
  simp only [List.take_zero, List.nil_append, Nat.zero_add, String.data_append,
    List.drop_left]

/-- Claim C8 counterexample: an all-uppercase digest is accepted, because
Node hex decoding is case-insensitive — the signature after stripping
`sha256=` is not equal to the lowercase digest, yet verification returns
true. -/
theorem webhookSignature_counterexample :
    verifyWebhookSignature hexDummy "payload"
      (upperStr (hexDummy "secret" "payload")) "secret" = true ∧
    replaceFirst (upperStr (hexDummy "secret" "payload")) "sha256=" ≠
      hexDummy "secret" "payload" := by
  decide

/-- Claim C8 (amended): an empty secret always fails verification; for a
non-empty secret, verification succeeds exactly when the hex decodings
(lenient, case-insensitive, first occurrence of `sha256=` removed) of the
digest and of the stripped signature agree; in particular the exact
well-formed signature `sha256=` followed by the digest is accepted.  The
unamended string-equality reading fails, since decoding also accepts
other spellings of the same bytes. -/
theorem webhookSignatureCharacterization (hmacHex : String → String → String)
    (payload signature secret : String) :
    (secret = "" → verifyWebhookSignature hmacHex payload signature secret = false) ∧
    (secret ≠ "" →
      (verifyWebhookSignature hmacHex payload signature secret = true ↔
        nodeHexDecode (hmacHex secret payload).data =
          nodeHexDecode (replaceFirst signature "sha256=").data)) ∧
    (secret ≠ "" → signature = "sha256=" ++ hmacHex secret payload →
      verifyWebhookSignature hmacHex payload signature secret = true) := by
  refine ⟨?_, ?_, ?_⟩
  · intro h
    subst h
    simp [verifyWebhookSignature]
  · intro hs
    have hneg : ¬((secret == "") = true) := by simpa using hs
    unfold verifyWebhookSignature
    rw [if_neg hneg]
    exact beqGuard_iff _ _
  · intro hs hsig
    subst hsig
    have hneg : ¬((secret == "") = true) := by simpa using hs
    unfold verifyWebhookSignature
    rw [if_neg hneg]
    rw [replaceFirst_prepend]
    simp

/-- Witness for the amended claim C8: empty secret fails, the well-formed
signature verifies, and the characterization instantiates at a concrete
malformed signature. -/
theorem webhookSignatureCharacterization_witness :
    verifyWebhookSignature hexDummy "payload" "sig" "" = false ∧
    verifyWebhookSignature hexDummy "payload"
      ("sha256=" ++ hexDummy "secret" "payload") "secret" = true ∧
    (verifyWebhookSignature hexDummy "payload" "zz" "secret" = true ↔
      nodeHexDecode (hexDummy "secret" "payload").data =
        nodeHexDecode (replaceFirst "zz" "sha256=").data) := by
  refine ⟨?_, ?_, ?_⟩
  · exact (webhookSignatureCharacterization hexDummy "payload" "sig" "").1 rfl
  · exact (webhookSignatureCharacterization hexDummy "payload"
      ("sha256=" ++ hexDummy "secret" "payload") "secret").2.2 (by decide) rfl
  · exact (webhookSignatureCharacterization hexDummy "payload" "zz" "secret").2.1
      (by decide)

/-- Claim C9: the input gate of `generateSiteConfig`.  A whitespace-only
prompt is rejected with `Prompt is required`; a prompt over 1000
characters is rejected with the cap message; in both cases the envelope
has `success = false` and carries no configuration.  A non-empty prompt
within the cap proceeds to generation on the untruncated prompt: the
response either succeeds carrying exactly the configuration built from
the full prompt, or fails schema validation with a validation error and
no configuration. -/
theorem generateSiteConfigGate (prompt : String)
    (options : GenerateSiteConfigOptions) :
    ((trimWS prompt.data).length = 0 →
      generateSiteConfig prompt options =
        ⟨false, none, some "Prompt is required"⟩) ∧
    ((trimWS prompt.data).length ≠ 0 → 1000 < prompt.length →
      generateSiteConfig prompt options =
        ⟨false, none, some "Prompt is too long (max 1000 characters)"⟩) ∧
    ((trimWS prompt.data).length ≠ 0 → prompt.length ≤ 1000 →
      ((generateSiteConfig prompt options).success = true ∧
        (generateSiteConfig prompt options).data =
          some (buildLocalConfig prompt options)) ∨
      ((generateSiteConfig prompt options).success = false ∧
        (generateSiteConfig prompt options).data = none ∧
        ∃ m, (generateSiteConfig prompt options).error =
          some ("Generated config failed validation: " ++ m))) := by
  refine ⟨?_, ?_, ?_⟩
  · intro h
    simp only [generateSiteConfig]
    rw [if_pos (by simpa using h)]
  · intro h1 h2
    simp only [generateSiteConfig]
    rw [if_neg (by simpa using h1), if_pos h2]
  · intro h1 h2
    simp only [generateSiteConfig]
    rw [if_neg (by simpa using h1), if_neg (by omega)]
    by_cases he : (validateSiteConfig (buildLocalConfig prompt options)).isEmpty = true
    · left
      rw [if_pos he]
      exact ⟨rfl, rfl⟩
    · right
      rw [if_neg he]
      exact ⟨rfl, rfl, _, rfl⟩

/-- Witness for claim C9: a whitespace-only prompt, a 1001-character
prompt, and a short valid prompt exercise the three branches of the
gate. -/
theorem generateSiteConfigGate_witness :
    generateSiteConfig "   " defaultGenOptions =
      ⟨false, none, some "Prompt is required"⟩ ∧
    generateSiteConfig longPrompt defaultGenOptions =
      ⟨false, none, some "Prompt is too long (max 1000 characters)"⟩ ∧
    (((generateSiteConfig "hello" defaultGenOptions).success = true ∧
      (generateSiteConfig "hello" defaultGenOptions).data =
        some (buildLocalConfig "hello" defaultGenOptions)) ∨
     ((generateSiteConfig "hello" defaultGenOptions).success = false ∧
      (generateSiteConfig "hello" defaultGenOptions).data = none ∧
      ∃ m, (generateSiteConfig "hello" defaultGenOptions).error =
        some ("Generated config failed validation: " ++ m))) := by
  have htrim : trimWS longPrompt.data = longPrompt.data :=
    trimWS_eq_self (by decide) (by decide)
  have hne : (trimWS longPrompt.data).length ≠ 0 := by
    rw [htrim]
    decide
  have hlong : 1000 < longPrompt.length := by decide
  exact ⟨(generateSiteConfigGate "   " defaultGenOptions).1 (by decide),
    (generateSiteConfigGate longPrompt defaultGenOptions).2.1 hne hlong,
    (generateSiteConfigGate "hello" defaultGenOptions).2.2 (by decide) (by decide)⟩

set_option maxHeartbeats 4000000 in
/-- Claim C10: the local generation path validates only the structural
schema before reporting success.  On the prompt whose quoted business
name contains the word `secret`, `generateSiteConfig` returns
`success = true` with a configuration that `validateSecurityConstraints`
rejects as `valid = false`. -/
theorem localGenerationSkipsSecurity :
    (generateSiteConfig promptSecretStudio defaultGenOptions).success = true ∧
    ((generateSiteConfig promptSecretStudio defaultGenOptions).data.map
      fun cfg => (validateSecurityConstraints cfg).valid) = some false := by
  decide
